import Mathlib

set_option maxRecDepth 8000

/-!
Verification of the area/mode resolution engine, the `.poly` boundary
loader, the error-taxonomy translator and the binary matrix encoding of
`nbroutes-util`, as shallowly embedded Lean definitions translated from
`src/lib.rs`, `src/coord.rs`, `src/poly.rs`, `src/util.rs` and `src/def.rs`.

Machine floats (`f64`) of the source carry coordinate values that are only
parsed, compared and printed, never rounded through float arithmetic in the
properties below, so they are embedded as exact rationals.  Rust panics
(`unwrap` on `None`, out-of-bounds indexing) are embedded as `Option.none`
results.
-/

/-- A parsed input coordinate (src/coord.rs, struct Coord): latitude and
longitude. -/
structure Coord where
  lat : Rat
  lng : Rat
deriving DecidableEq, Repr

/-- A boundary polygon (geo Polygon as used by the repo): an exterior ring of
(x = lng, y = lat) vertices and interior hole rings (always empty here, see
spec section 3).  The ring is kept exactly as handed to the constructor. -/
structure Polygon where
  exterior : List (Rat × Rat)
  interiors : List (List (Rat × Rat))
deriving DecidableEq, Repr

/-- geo Polygon::new as used in src/poly.rs: exterior ring from the parsed
coordinate list, no interior rings. -/
def Polygon.new (ext : List (Rat × Rat)) : Polygon :=
  { exterior := ext, interiors := [] }

/-- Consecutive edges of a ring, last vertex joined back to the first. -/
def ringEdges (ring : List (Rat × Rat)) : List ((Rat × Rat) × (Rat × Rat)) :=
  ring.zip (ring.rotate 1)

/-- Modelled from the spec (section 4.2): one step of the standard ray-cast,
whether a horizontal ray from `p` to the east crosses the edge `e`.  The geo
crate's exact containment test is an external dependency, not under src/. -/
def rayCrosses (p : Rat × Rat) (e : (Rat × Rat) × (Rat × Rat)) : Bool :=
  (decide (e.1.2 > p.2) != decide (e.2.2 > p.2)) &&
    decide (p.1 < e.1.1 + (p.2 - e.1.2) * (e.2.1 - e.1.1) / (e.2.2 - e.1.2))

/-- Modelled from the spec (section 4.2): point-in-ring by parity of ray
crossings. -/
def inRing (p : Rat × Rat) (ring : List (Rat × Rat)) : Bool :=
  ((ringEdges ring).countP (rayCrosses p)) % 2 == 1

/-- Modelled from the spec (section 4.2): exact point-in-polygon containment,
inside the exterior ring and outside every hole. -/
def Polygon.containsPoint (v : Polygon) (p : Rat × Rat) : Bool :=
  inRing p v.exterior && v.interiors.all (fun h => !(inRing p h))

/-- geo bounding_rect of a polygon: ((min x, min y), (max x, max y)) over the
exterior ring, none for an empty ring. -/
def boundingRect? (v : Polygon) : Option ((Rat × Rat) × (Rat × Rat)) :=
  match v.exterior with
  | [] => none
  | q :: qs =>
      some (qs.foldl
        (fun r q2 =>
          ((min r.1.1 q2.1, min r.1.2 q2.2), (max r.2.1 q2.1, max r.2.2 q2.2)))
        ((q.1, q.2), (q.1, q.2)))

/-- src/coord.rs, Locatable::is_in_polygons: bounding-box pre-filter then exact
containment, true on the first polygon containing the point.  The source
unwraps bounding_rect(); an empty ring would panic there, embedded as none. -/
def is_in_polygons (c : Coord) : List Polygon → Option Bool
  | [] => some false
  | v :: rest =>
      match boundingRect? v with
      | none => none
      | some br =>
          if c.lng < br.1.1 || c.lng > br.2.1 || c.lat < br.1.2 || c.lat > br.2.2 then
            is_in_polygons c rest
          else if v.containsPoint (c.lng, c.lat) then some true
          else is_in_polygons c rest

/-- An area's flexible mode tier (src/util.rs, struct AreaFlexible).
allowed_context is not consulted by the resolver and is omitted. -/
structure AreaFlexible where
  default_service : String
  mappings : List (String × String)
deriving DecidableEq, Repr

/-- An area definition (src/util.rs, struct Area).  The BTreeMap of mode
mappings is embedded as an association list with unique keys; the
time-dependant fields are never read by the resolver and are omitted. -/
structure Area where
  name : String
  default_service : String
  mappings : List (String × String)
  flexible_setting : Option AreaFlexible
deriving DecidableEq, Repr

/-- The polygon store passed to find_area: HashMap from area name to polygon
list, embedded as a lookup function. -/
abbrev PolyStore : Type := String → Option (List Polygon)

/-- The shared tail of map_mode (src/lib.rs lines 456-477) once the active
tier's default mode and mappings have been selected. -/
def map_mode_tier (mode : Option String) (default_mode : String)
    (mappings : List (String × String)) : Except String String :=
  match mode with
  | some m =>
      if m ≠ "" then
        match mappings.lookup m with
        | some v => Except.ok v
        | none =>
            if m = default_mode then Except.ok default_mode
            else Except.error "invalid mode input"
      else if default_mode = "" then Except.error "area not supported"
      else Except.ok default_mode
  | none =>
      if default_mode = "" then Except.error "area not supported"
      else Except.ok default_mode

/-- src/lib.rs, map_mode: select the base or flexible tier, then resolve the
requested mode against it. -/
def map_mode (mode : Option String) (area : Area) (is_flexible_request : Bool) :
    Except String String :=
  if is_flexible_request then
    match area.flexible_setting with
    | none => Except.error "option=flexible not supported for this area"
    | some fs => map_mode_tier mode fs.default_service fs.mappings
  else
    map_mode_tier mode area.default_service area.mappings

/-- The per-point containment loop of find_area (src/lib.rs lines 349-364):
collect the indices of contained points and the missing points in input
order, breaking at the first missing point when outliers are intolerable.
A panic inside is_in_polygons propagates as none. -/
def scanCoords (vs : List Polygon) (tol : Bool) :
    List Coord → Nat → Option (List Nat × List Coord)
  | [], _ => some ([], [])
  | c :: rest, idx =>
      match is_in_polygons c vs with
      | none => none
      | some true =>
          match scanCoords vs tol rest (idx + 1) with
          | none => none
          | some (ci, mc) => some (idx :: ci, mc)
      | some false =>
          if tol then
            match scanCoords vs tol rest (idx + 1) with
            | none => none
            | some (ci, mc) => some (ci, c :: mc)
          else some ([], [c])

/-- The per-point loop as the spec reads it for the refinement comparison of
its section 4.4 step 4: containment of every point of the area is tested, no
early break; the tolerate_outlier policy is applied only afterwards.  The tol
argument is kept for signature compatibility and is not read. -/
def scanCoordsAll (vs : List Polygon) (tol : Bool) :
    List Coord → Nat → Option (List Nat × List Coord)
  | [], _ => some ([], [])
  | c :: rest, idx =>
      match is_in_polygons c vs with
      | none => none
      | some true =>
          match scanCoordsAll vs tol rest (idx + 1) with
          | none => none
          | some (ci, mc) => some (idx :: ci, mc)
      | some false =>
          match scanCoordsAll vs tol rest (idx + 1) with
          | none => none
          | some (ci, mc) => some (ci, c :: mc)

deriving instance DecidableEq for Except

/-- The mutable locals of find_area (src/lib.rs lines 331-338). -/
structure FindSt where
  bestArea : Option Area
  bestCoordIndex : List Nat
  mappedMode : Option String
  bestMissing : Option Coord
  bestNumberOfCoords : Nat
deriving DecidableEq, Repr

/-- The initial state of the find_area loop. -/
def initSt : FindSt :=
  { bestArea := none, bestCoordIndex := [], mappedMode := none,
    bestMissing := none, bestNumberOfCoords := 0 }

/-- What find_area resolves to: the matched area, the mapped mode, and the
optional list of indices stored in best_coord_index. -/
abbrev FindResult : Type := Area × String × Option (List Nat)

/-- The error text of the bail at src/lib.rs line 416, the latitude then the
longitude of the best-guess missing coordinate.  f64 Display is embedded as
Rat.toString, which agrees on the integral values exercised below. -/
def formatCoordErr (c : Coord) : String :=
  "(" ++ toString c.lat ++ "," ++ toString c.lng ++ ")"

/-- The area loop of find_area (src/lib.rs lines 340-419), generic in the
per-point containment scan so that the early-break scan of the source and the
scan-everything variant of the spec instantiate the same loop.  Areas whose
name has no polygon list are skipped; a full containment with a working mode
mapping returns at once; otherwise the best-guess missing coordinate and the
best tolerated partial candidate are tracked, and the loop ends with the best
candidate or an error. -/
def findAreaLoopG
    (scan : List Polygon → Bool → List Coord → Nat → Option (List Nat × List Coord))
    (mode : Option String) (coords : List Coord) (polygons : PolyStore)
    (tol flex : Bool) : List Area → FindSt → Option (Except String FindResult)
  | [], st =>
      match st.bestArea, st.mappedMode with
      | some a, some m => some (Except.ok (a, m, some st.bestCoordIndex))
      | _, _ =>
          match st.bestMissing with
          | some c => some (Except.error (formatCoordErr c))
          | none => some (Except.error "")
  | area :: rest, st =>
      match polygons area.name with
      | none => findAreaLoopG scan mode coords polygons tol flex rest st
      | some vs =>
          match scan vs tol coords 0 with
          | none => none
          | some (ci, mc) =>
              if ci.length = coords.length then
                match map_mode mode area flex with
                | Except.ok m => some (Except.ok (area, m, none))
                | Except.error _ =>
                    findAreaLoopG scan mode coords polygons tol flex rest st
              else
                match
                  (if st.bestNumberOfCoords = 0 ∨ ci.length > st.bestNumberOfCoords then
                    match mc with
                    | c :: _ =>
                        some { st with bestMissing := some c,
                                       bestNumberOfCoords := ci.length }
                    | [] => none
                  else some st) with
                | none => none
                | some st1 =>
                    if ci.length = 0 then
                      findAreaLoopG scan mode coords polygons tol flex rest st1
                    else if !tol then
                      findAreaLoopG scan mode coords polygons tol flex rest st1
                    else if ci.length > st1.bestCoordIndex.length then
                      match map_mode mode area flex with
                      | Except.ok m =>
                          findAreaLoopG scan mode coords polygons tol flex rest
                            { st1 with bestArea := some area, bestCoordIndex := ci,
                                       mappedMode := some m }
                      | Except.error _ =>
                          findAreaLoopG scan mode coords polygons tol flex rest st1
                    else findAreaLoopG scan mode coords polygons tol flex rest st1

/-- src/lib.rs, find_area (the request_id argument only feeds logging and is
dropped). -/
def find_area (mode : Option String) (coords : List Coord) (polygons : PolyStore)
    (areas : List Area) (tolerate_outlier is_flexible_request : Bool) :
    Option (Except String FindResult) :=
  findAreaLoopG scanCoords mode coords polygons tolerate_outlier
    is_flexible_request areas initSt

/-- The refinement comparison point for the spec's section 4.4 step 4: the
same resolution loop, with containment of all points of every area tested
before the rejection policy applies. -/
def find_area_all (mode : Option String) (coords : List Coord) (polygons : PolyStore)
    (areas : List Area) (tolerate_outlier is_flexible_request : Bool) :
    Option (Except String FindResult) :=
  findAreaLoopG scanCoordsAll mode coords polygons tolerate_outlier
    is_flexible_request areas initSt

/-- Rust str::lines: pieces split at newline, a trailing carriage return
stripped from each, the final line terminator optional. -/
def rustLines (s : String) : List String :=
  if s = "" then []
  else
    (let ps := s.splitOn "\n"
     if ps.getLast? = some "" then ps.dropLast else ps).map
      (fun l => if l.endsWith "\r" then l.dropRight 1 else l)

/-- Rust str::trim_end over the whitespace the .poly files use (space, tab,
carriage return, newline). -/
def rustTrimEnd (s : String) : String :=
  String.mk ((s.data.reverse.dropWhile Char.isWhitespace).reverse)

/-- Rust str::trim, both ends. -/
def rustTrim (s : String) : String :=
  String.mk (((s.data.dropWhile Char.isWhitespace).reverse.dropWhile
    Char.isWhitespace).reverse)

/-- The replace of a one-character pattern in src/poly.rs: every tab becomes a
space. -/
def tabToSpace (s : String) : String :=
  String.mk (s.data.map (fun c => if c = '\t' then ' ' else c))

/-- Rust str::split_whitespace: maximal non-whitespace runs. -/
def splitWhitespace (s : String) : List String :=
  (s.split Char.isWhitespace).filter (fun t => t ≠ "")

/-- The value of a run of decimal digits, none when empty or when a non-digit
appears. -/
def digitsToNat : List Char → Option Nat
  | [] => none
  | ds =>
      ds.foldlM
        (fun acc c => if c.isDigit then some (acc * 10 + (c.toNat - 48)) else none) 0

/-- The unsigned part of parseF: digits with an optional fractional part. -/
def parseUnsignedDecimal (l : List Char) : Option Rat :=
  match l.splitOn '.' with
  | [ip] => (digitsToNat ip).map (fun n => (n : Rat))
  | [ip, fp] =>
      match digitsToNat ip, digitsToNat fp with
      | some n, some f => some ((n : Rat) + (f : Rat) / (10 : Rat) ^ fp.length)
      | _, _ => none
  | _ => none

/-- Modelled from the spec (section 6): Rust str::parse::<f64> on the numeric
vertex tokens of a .poly file, restricted to plain decimal literals and read
exactly as a rational (the repo only stores and compares these values). -/
def parseF (s : String) : Option Rat :=
  match s.data with
  | [] => none
  | '-' :: rest => (parseUnsignedDecimal rest).map (fun q => -q)
  | l => parseUnsignedDecimal l

/-- The indented-vertex handling of a line in block mode (src/poly.rs lines
27-36): some (some c) when the line is indented with exactly two parsed
tokens, some none when the line contributes nothing, none when a token with
two items fails the f64 parse (an unwrap panic in the source). -/
def vertexStep (line : String) : Option (Option (Rat × Rat)) :=
  if (tabToSpace (rustTrimEnd line)).startsWith " " then
    match splitWhitespace (rustTrim (tabToSpace (rustTrimEnd line))) with
    | [a, b] =>
        match parseF a, parseF b with
        | some x, some y => some (some (x, y))
        | _, _ => none
    | _ => some none
  else some none

/-- The loop state of _load (src/poly.rs lines 12-14). -/
structure LoadSt where
  mode : Nat
  coords : List (Rat × Rat)
  polygons : List Polygon
deriving DecidableEq, Repr

/-- One line of the _load state machine (src/poly.rs lines 15-45): in mode 0 an
indented line opens a block; in mode 1 an indented two-token line appends a
vertex and an END line closes the polygon. -/
def loadStep (st : LoadSt) (line : String) : Option LoadSt :=
  match st.mode with
  | 0 =>
      some (if (tabToSpace (rustTrimEnd line)).startsWith " " then
              { st with mode := 1 }
            else st)
  | 1 =>
      match vertexStep line with
      | none => none
      | some push =>
          (fun st1 =>
            some (if rustTrimEnd line = "END" then
                    { st1 with mode := 0, coords := [],
                               polygons := st1.polygons ++ [Polygon.new st1.coords] }
                  else st1))
            (match push with
             | some c => { st with coords := st.coords ++ [c] }
             | none => st)
  | _ => some st

/-- The for-loop of _load over the lines. -/
def runLines : LoadSt → List String → Option LoadSt
  | st, [] => some st
  | st, l :: rest =>
      match loadStep st l with
      | none => none
      | some st2 => runLines st2 rest

/-- src/poly.rs, _load on an already split line list. -/
def loadLinesPoly (lines : List String) : Option (List Polygon) :=
  (runLines { mode := 0, coords := [], polygons := [] } lines).map LoadSt.polygons

/-- src/poly.rs, _load: parse the text of a .poly document into its polygons
(the io::Error return of the source is never an Err; parse panics are none). -/
def _load (contents : String) : Option (List Polygon) :=
  loadLinesPoly (rustLines contents)

/-- src/def.rs, enum Engine. -/
inductive Engine where
  | OSRM
  | Valhalla
deriving DecidableEq, Repr

/-- src/def.rs, enum ValhallaError. -/
inductive ValhallaError where
  | NotImplemented
  | InvalidUrl
  | InvalidService
  | InvalidOptions
  | InvalidValue
  | NoRoute
  | NoSegment
  | ServiceUnavailable
  | DistanceExceeded
  | PerimeterExceeded
  | BreakageDistanceExceeded
  | BadRequest
  | NotFound
  | MethodNotAllowed
  | InternalServerError
  | UnknownError
deriving DecidableEq, Repr

/-- src/def.rs, enum OsrmError. -/
inductive OsrmError where
  | TooBig
  | NotImplemented
  | InvalidOptions
  | NoSegment
  | NoTable
  | InvalidValue
  | NoMatch
  | NoTrips
  | NoRoute
  | UnknownError
deriving DecidableEq, Repr

/-- src/def.rs, enum EngineError, restricted to the variants adapt_err_message
can produce and the variants the two message handlers match on (the remaining
variants of the Rust enum are never constructed along the translation paths
embedded here). -/
inductive EngineError where
  | InputFailedToParseJsonRequest
  | InputNoPath
  | InputFailedToParseLocation
  | InputFailedToParseSource
  | InputFailedToParseTarget
  | InputInsufficientLocations
  | InputInsufficientLocationsOrSourcesTargets
  | InputInsufficientLocationsProvided
  | InputInsufficientSourcesProvided
  | InputInsufficientTargetsProvided
  | InputInvalidInputTable
  | InputCoordinatesInvalid
  | InputUnknown
deriving DecidableEq, Repr

/-- src/def.rs, enum AdaptError. -/
inductive AdaptError where
  | OutputRouteFailed
  | OutputInvalidOption
  | OutputUnclassifiedError
  | OutputCoordinatesInvalid
  | OutputTooBig
  | OutputNotImplemented
  | OutputNoSegment
  | OutputNoTable
  | OutputNoTableNode
  | OutputInvalidValue
  | OutputNoMatch
  | OutputNoTrips
  | OutputMethodNotAllowed
  | OutputInternalServerError
  | OutputInvalidUrl
  | OutputDistanceExceeded
  | OutputInvalidLocation
  | OutputFailed
deriving DecidableEq, Repr

/-- src/def.rs, impl ToString for AdaptError: the public error strings. -/
def AdaptError.toString : AdaptError → String
  | .OutputRouteFailed => "There is no route for input"
  | .OutputInvalidOption => "Wrong parameters or lack required parameters"
  | .OutputUnclassifiedError => "Failed, unclassified error"
  | .OutputCoordinatesInvalid => "Invalid coordinates"
  | .OutputTooBig => "Request exceeds the max limit"
  | .OutputNotImplemented => "request is not supported"
  | .OutputNoSegment =>
      "There is at least one coordinate can not be snapped to the street"
  | .OutputNoTable => "No table found"
  | .OutputNoTableNode => "Invalid origins or destination input for table"
  | .OutputInvalidValue => "Invalid value for input"
  | .OutputNoMatch => "Could not match the trace"
  | .OutputNoTrips => "No trip visiting all destinations possible"
  | .OutputMethodNotAllowed => "only support post&get methods"
  | .OutputInternalServerError => "internal server error"
  | .OutputInvalidUrl => "URL string is invalid"
  | .OutputDistanceExceeded => "Exceeds the max distance limit"
  | .OutputInvalidLocation => "Invalid location"
  | .OutputFailed => "failed"

/-- src/lib.rs, adapt_err_message: the fixed backend message table. -/
def adapt_err_message (message : String) : EngineError :=
  if message = "Failed to parse json request" then .InputFailedToParseJsonRequest
  else if message = "No path could be found for input" then .InputNoPath
  else if message = "Failed to parse location" then .InputFailedToParseLocation
  else if message = "Failed to parse source" then .InputFailedToParseSource
  else if message = "Failed to parse target" then .InputFailedToParseTarget
  else if message = "Insufficiently specified required parameter 'locations'" then
    .InputInsufficientLocations
  else if message =
      "Insufficiently specified required parameter 'locations' or 'sources & targets'" then
    .InputInsufficientLocationsOrSourcesTargets
  else if message = "Insufficient number of locations provided" then
    .InputInsufficientLocationsProvided
  else if message = "Insufficient number of sources provided" then
    .InputInsufficientSourcesProvided
  else if message = "Insufficient number of targets provided" then
    .InputInsufficientTargetsProvided
  else if message = "No table found, no valid input node" then .InputInvalidInputTable
  else .InputUnknown

/-- src/lib.rs, handle_valhalla_err_message: Valhalla error class to public
string, refining some classes through the message table. -/
def handle_valhalla_err_message (error_type : ValhallaError) (message : String) :
    String :=
  AdaptError.toString
    (match error_type with
     | .BadRequest =>
         match adapt_err_message message with
         | .InputNoPath => AdaptError.OutputRouteFailed
         | _ => AdaptError.OutputUnclassifiedError
     | .NotImplemented =>
         match adapt_err_message message with
         | _ => AdaptError.OutputNotImplemented
     | .MethodNotAllowed => AdaptError.OutputMethodNotAllowed
     | .InternalServerError => AdaptError.OutputInternalServerError
     | .InvalidUrl =>
         match adapt_err_message message with
         | _ => AdaptError.OutputInvalidUrl
     | .NoSegment => AdaptError.OutputNoSegment
     | .InvalidOptions =>
         match adapt_err_message message with
         | _ => AdaptError.OutputInvalidOption
     | .NoRoute => AdaptError.OutputRouteFailed
     | .InvalidValue =>
         match adapt_err_message message with
         | .InputFailedToParseLocation | .InputFailedToParseSource
         | .InputFailedToParseTarget | .InputInsufficientLocations
         | .InputInsufficientLocationsOrSourcesTargets
         | .InputInsufficientLocationsProvided | .InputInsufficientSourcesProvided
         | .InputInsufficientTargetsProvided => AdaptError.OutputInvalidLocation
         | _ => AdaptError.OutputInvalidValue
     | .DistanceExceeded | .PerimeterExceeded | .BreakageDistanceExceeded =>
         AdaptError.OutputTooBig
     | _ => AdaptError.OutputUnclassifiedError)

/-- src/lib.rs, handle_osrm_err_message: OSRM error class to public string,
refining some classes through the message table. -/
def handle_osrm_err_message (error_type : OsrmError) (message : String) : String :=
  AdaptError.toString
    (match error_type with
     | .NoRoute => AdaptError.OutputRouteFailed
     | .InvalidOptions =>
         match adapt_err_message message with
         | .InputCoordinatesInvalid => AdaptError.OutputCoordinatesInvalid
         | _ => AdaptError.OutputInvalidOption
     | .TooBig =>
         match adapt_err_message message with
         | _ => AdaptError.OutputTooBig
     | .NotImplemented =>
         match adapt_err_message message with
         | _ => AdaptError.OutputNotImplemented
     | .NoSegment =>
         match adapt_err_message message with
         | _ => AdaptError.OutputNoSegment
     | .NoTable =>
         match adapt_err_message message with
         | .InputInvalidInputTable => AdaptError.OutputNoTableNode
         | _ => AdaptError.OutputNoTable
     | .InvalidValue =>
         match adapt_err_message message with
         | _ => AdaptError.OutputInvalidValue
     | .NoMatch =>
         match adapt_err_message message with
         | _ => AdaptError.OutputNoMatch
     | .NoTrips => AdaptError.OutputNoTrips
     | _ => AdaptError.OutputUnclassifiedError)

/-- src/lib.rs, error_handle_valhalla: backend code string to Valhalla error
class, then the message handler. -/
def error_handle_valhalla (code : String) (message : String) : String :=
  handle_valhalla_err_message
    (if code = "Bad Request" then .BadRequest
     else if code = "Not Implemented" then .NotImplemented
     else if code = "Not Found" then .NotFound
     else if code = "Method Not Allowed" then .MethodNotAllowed
     else if code = "Internal Server Error" then .InternalServerError
     else if code = "InvalidUrl" then .InvalidUrl
     else if code = "InvalidService" then .InvalidService
     else if code = "InvalidOptions" then .InvalidOptions
     else if code = "InvalidValue" then .InvalidValue
     else if code = "NoRoute" then .NoRoute
     else if code = "NoSegment" then .NoSegment
     else if code = "ServiceUnavailable" then .ServiceUnavailable
     else if code = "DistanceExceeded" then .DistanceExceeded
     else if code = "PerimeterExceeded" then .PerimeterExceeded
     else if code = "BreakageDistanceExceeded" then .BreakageDistanceExceeded
     else .UnknownError)
    message

/-- src/lib.rs, error_handle_osrm: backend code string to OSRM error class,
then the message handler. -/
def error_handle_osrm (code : String) (message : String) : String :=
  handle_osrm_err_message
    (if code = "TooBig" then .TooBig
     else if code = "NotImplemented" then .NotImplemented
     else if code = "InvalidOptions" then .InvalidOptions
     else if code = "NoSegment" then .NoSegment
     else if code = "NoTable" then .NoTable
     else if code = "InvalidValue" then .InvalidValue
     else if code = "NoMatch" then .NoMatch
     else if code = "NoTrips" then .NoTrips
     else if code = "NoRoute" then .NoRoute
     else .UnknownError)
    message

/-- src/lib.rs, engine_mode_input: every engine string other than osrm selects
the Valhalla handler. -/
def engine_mode_input (engine : String) : Engine :=
  if engine = "osrm" then Engine.OSRM else Engine.Valhalla

/-- src/lib.rs, handle_error_message: the public error translator. -/
def handle_error_message (engine code message : String) : String :=
  match engine_mode_input engine with
  | Engine.OSRM => error_handle_osrm code message
  | Engine.Valhalla => error_handle_valhalla code message

/-- The backend code strings error_handle_valhalla recognizes. -/
def valhallaCodes : List String :=
  ["Bad Request", "Not Implemented", "Not Found", "Method Not Allowed",
   "Internal Server Error", "InvalidUrl", "InvalidService", "InvalidOptions",
   "InvalidValue", "NoRoute", "NoSegment", "ServiceUnavailable",
   "DistanceExceeded", "PerimeterExceeded", "BreakageDistanceExceeded"]

/-- The backend code strings error_handle_osrm recognizes. -/
def osrmCodes : List String :=
  ["TooBig", "NotImplemented", "InvalidOptions", "NoSegment", "NoTable",
   "InvalidValue", "NoMatch", "NoTrips", "NoRoute"]

/-- The backend message strings adapt_err_message recognizes. -/
def knownEngineMessages : List String :=
  ["Failed to parse json request", "No path could be found for input",
   "Failed to parse location", "Failed to parse source", "Failed to parse target",
   "Insufficiently specified required parameter 'locations'",
   "Insufficiently specified required parameter 'locations' or 'sources & targets'",
   "Insufficient number of locations provided",
   "Insufficient number of sources provided",
   "Insufficient number of targets provided",
   "No table found, no valid input node"]

/-- src/def.rs, struct IntValue: the u64 value field used by matrix elements
(display fields are not read by the encoder and are omitted). -/
structure IntValue where
  value : Nat
deriving DecidableEq, Repr

/-- src/def.rs, struct Element of a matrix row. -/
structure Element where
  duration : IntValue
  distance : IntValue
  raw_duration : Option IntValue
  predicted_duration : Option IntValue
deriving DecidableEq, Repr

/-- src/def.rs, struct Row. -/
structure Row where
  elements : List Element
deriving DecidableEq, Repr

/-- src/def.rs, struct MatrixOutput. -/
structure MatrixOutput where
  status : String
  warning : Option (List String)
  rows : List Row
deriving DecidableEq, Repr

/-- The four little-endian base-256 bytes of a u32, least significant first
(LittleEndian::write_u32_into for one integer). -/
def leBytes4 (n : Nat) : List Nat :=
  [n % 256, n / 256 % 256, n / 256 ^ 2 % 256, n / 256 ^ 3 % 256]

/-- src/def.rs, encode: a (duration, distance) pair of u32 as 8 bytes,
duration first, each little-endian. -/
def encode (duration distance : Nat) : List Nat :=
  leBytes4 duration ++ leBytes4 distance

/-- The value a little-endian 4-byte record denotes. -/
def fromLE4 (bs : List Nat) : Nat :=
  match bs with
  | [b0, b1, b2, b3] => b0 + 256 * b1 + 256 ^ 2 * b2 + 256 ^ 3 * b3
  | _ => 0

/-- src/def.rs, MatrixOutput::binary_encode: a header record of (row count,
column count) then one record per element, row-major.  The u64 values and the
usize lengths are cast to u32, embedded as reduction mod 2^32; the source
indexes rows[0] unconditionally, so an empty rows list panics, embedded as
none. -/
def binary_encode (m : MatrixOutput) : Option (List Nat) :=
  match m.rows with
  | [] => none
  | r0 :: _ =>
      some (m.rows.foldl
        (fun acc row =>
          row.elements.foldl
            (fun acc2 e =>
              acc2 ++ encode (e.duration.value % 2 ^ 32) (e.distance.value % 2 ^ 32))
            acc)
        (encode (m.rows.length % 2 ^ 32) (r0.elements.length % 2 ^ 32)))

/-- The spec's scenario area (section 8): name sg, mappings car to 4w, default
service 4w, no flexible tier. -/
def sgArea : Area :=
  { name := "sg", default_service := "4w", mappings := [("car", "4w")],
    flexible_setting := none }

/-- The spec's scenario polygon: the (lng, lat) box around Singapore. -/
def sgPoly : Polygon :=
  Polygon.new [(103.8, 1.35), (103.9, 1.35), (103.9, 1.25), (103.8, 1.25)]

/-- The polygon store of the scenarios: sg only. -/
def sgStore : PolyStore :=
  fun n => if n = "sg" then some [sgPoly] else none

/-- The scenario point inside the sg box, (lat 1.30, lng 103.85). -/
def sgInside : Coord := { lat := 1.30, lng := 103.85 }

/-- The scenario point far outside, (lat 40.0, lng -70.0). -/
def sgOutside : Coord := { lat := 40.0, lng := -70.0 }


/-- Well-formed polygon list: every exterior ring has a vertex, so geo's
bounding_rect unwrap cannot panic. -/
def WFPolys (vs : List Polygon) : Prop :=
  ∀ v ∈ vs, v.exterior ≠ []

/-- Well-formed polygon store: every stored polygon list is well formed. -/
def WFStore (polygons : PolyStore) : Prop :=
  ∀ name vs, polygons name = some vs → WFPolys vs

/-- The indices of the input coordinates contained in the polygon list, in
input order. -/
def containedIdx (coords : List Coord) (vs : List Polygon) : List Nat :=
  ((coords.enumFrom 0).filter
    (fun p => is_in_polygons p.2 vs == some true)).map Prod.fst

theorem is_in_polygons_total (c : Coord) (vs : List Polygon) (h : WFPolys vs) :
    ∃ b, is_in_polygons c vs = some b := by
  induction vs with
  | nil => exact ⟨false, rfl⟩
  | cons v rest ih =>
      have hv : v.exterior ≠ [] := h v (List.mem_cons_self v rest)
      have hrest : WFPolys rest := fun w hw => h w (List.mem_cons_of_mem v hw)
      obtain ⟨b, hb⟩ := ih hrest
      have hbr : ∃ r, boundingRect? v = some r := by
        unfold boundingRect?
        cases hve : v.exterior with
        | nil => exact absurd hve hv
        | cons q qs => exact ⟨_, rfl⟩
      obtain ⟨r, hr⟩ := hbr
      unfold is_in_polygons
      rw [hr]
      dsimp only
      by_cases h1 : c.lng < r.1.1 || c.lng > r.2.1 || c.lat < r.1.2 || c.lat > r.2.2
      · rw [if_pos h1]
        exact ⟨b, hb⟩
      · rw [if_neg h1]
        by_cases h2 : v.containsPoint (c.lng, c.lat)
        · rw [if_pos h2]; exact ⟨true, rfl⟩
        · rw [if_neg h2]; exact ⟨b, hb⟩

theorem scanCoords_true_eq (vs : List Polygon) (h : WFPolys vs) :
    ∀ (coords : List Coord) (i0 : Nat),
      scanCoords vs true coords i0 =
        some ((((coords.enumFrom i0).filter
                  (fun p => is_in_polygons p.2 vs == some true)).map Prod.fst),
              coords.filter (fun c => is_in_polygons c vs == some false)) := by
  intro coords
  induction coords with
  | nil => intro i0; rfl
  | cons c rest ih =>
      intro i0
      obtain ⟨b, hb⟩ := is_in_polygons_total c vs h
      unfold scanCoords
      rw [hb]
      cases b with
      | true =>
          rw [ih (i0 + 1)]
          simp [List.enumFrom, List.filter, hb]
      | false =>
          rw [if_pos rfl, ih (i0 + 1)]
          simp [List.enumFrom, List.filter, hb]

/-- The interface the area loop needs from a per-point scan: on well-formed
polygons the scan succeeds, full containment is equivalent to a full index
list, and a non-full scan reports at least one missing coordinate; on fully
contained input the scan returns a full index list and no missing points. -/
def ScanSpec
    (scan : List Polygon → Bool → List Coord → Nat → Option (List Nat × List Coord)) :
    Prop :=
  ∀ vs tol coords i0,
    (WFPolys vs →
       ∃ ci mc, scan vs tol coords i0 = some (ci, mc) ∧
         (ci.length = coords.length ↔ ∀ c ∈ coords, is_in_polygons c vs = some true) ∧
         (ci.length ≠ coords.length → mc ≠ []) ∧ ci.length ≤ coords.length) ∧
    ((∀ c ∈ coords, is_in_polygons c vs = some true) →
       ∃ ci, scan vs tol coords i0 = some (ci, []) ∧ ci.length = coords.length)

theorem scanCoords_spec : ScanSpec scanCoords := by
  intro vs tol coords
  induction coords with
  | nil =>
      intro i0
      exact ⟨fun _ => ⟨[], [], rfl, by simp, by simp, by simp⟩,
             fun _ => ⟨[], rfl, rfl⟩⟩
  | cons c rest ih =>
      intro i0
      constructor
      · intro hwf
        obtain ⟨b, hb⟩ := is_in_polygons_total c vs hwf
        obtain ⟨ci, mc, hscan, hiff, hmc, hle⟩ := (ih (i0 + 1)).1 hwf
        cases b with
        | true =>
            refine ⟨i0 :: ci, mc, ?_, ?_, ?_, ?_⟩
            · unfold scanCoords; rw [hb, hscan]
            · simp only [List.length_cons, Nat.succ.injEq, hiff,
                List.mem_cons]
              constructor
              · intro hall x hx
                cases hx with
                | inl hx => rw [hx]; exact hb
                | inr hx => exact hall x hx
              · intro hall x hx
                exact hall x (Or.inr hx)
            · intro hne
              exact hmc (by simpa using hne)
            · simpa using hle
        | false =>
            cases tol with
            | true =>
                refine ⟨ci, c :: mc, ?_, ?_, ?_, ?_⟩
                · unfold scanCoords; rw [hb, if_pos rfl, hscan]
                · constructor
                  · intro hlen
                    exact absurd hlen (by simp; omega)
                  · intro hall
                    rw [hall c (List.mem_cons_self c rest)] at hb
                    exact absurd hb (by simp)
                · intro _; simp
                · simp; omega
            | false =>
                refine ⟨[], [c], ?_, ?_, ?_, ?_⟩
                · unfold scanCoords; rw [hb, if_neg (by simp)]
                · constructor
                  · intro hlen; exact absurd hlen.symm (by simp)
                  · intro hall
                    rw [hall c (List.mem_cons_self c rest)] at hb
                    exact absurd hb (by simp)
                · intro _; simp
                · simp
      · intro hall
        have hc : is_in_polygons c vs = some true :=
          hall c (List.mem_cons_self c rest)
        obtain ⟨ci, hscan, hlen⟩ :=
          (ih (i0 + 1)).2 (fun x hx => hall x (List.mem_cons_of_mem c hx))
        refine ⟨i0 :: ci, ?_, by simpa using hlen⟩
        unfold scanCoords; rw [hc, hscan]

theorem scanCoordsAll_spec : ScanSpec scanCoordsAll := by
  intro vs tol coords
  induction coords with
  | nil =>
      intro i0
      exact ⟨fun _ => ⟨[], [], rfl, by simp, by simp, by simp⟩,
             fun _ => ⟨[], rfl, rfl⟩⟩
  | cons c rest ih =>
      intro i0
      constructor
      · intro hwf
        obtain ⟨b, hb⟩ := is_in_polygons_total c vs hwf
        obtain ⟨ci, mc, hscan, hiff, hmc, hle⟩ := (ih (i0 + 1)).1 hwf
        cases b with
        | true =>
            refine ⟨i0 :: ci, mc, ?_, ?_, ?_, ?_⟩
            · unfold scanCoordsAll; rw [hb, hscan]
            · simp only [List.length_cons, Nat.succ.injEq, hiff,
                List.mem_cons]
              constructor
              · intro hall x hx
                cases hx with
                | inl hx => rw [hx]; exact hb
                | inr hx => exact hall x hx
              · intro hall x hx
                exact hall x (Or.inr hx)
            · intro hne
              exact hmc (by simpa using hne)
            · simpa using hle
        | false =>
            refine ⟨ci, c :: mc, ?_, ?_, ?_, ?_⟩
            · unfold scanCoordsAll; rw [hb, hscan]
            · constructor
              · intro hlen
                exact absurd hlen (by simp; omega)
              · intro hall
                rw [hall c (List.mem_cons_self c rest)] at hb
                exact absurd hb (by simp)
            · intro _; simp
            · simp; omega
      · intro hall
        have hc : is_in_polygons c vs = some true :=
          hall c (List.mem_cons_self c rest)
        obtain ⟨ci, hscan, hlen⟩ :=
          (ih (i0 + 1)).2 (fun x hx => hall x (List.mem_cons_of_mem c hx))
        refine ⟨i0 :: ci, ?_, by simpa using hlen⟩
        unfold scanCoordsAll; rw [hc, hscan]

/-- An area that fully matches: its polygons are stored, they contain every
input point, and mode mapping succeeds. -/
def FullOk (mode : Option String) (polygons : PolyStore) (flex : Bool)
    (coords : List Coord) (area : Area) : Prop :=
  ∃ vs m, polygons area.name = some vs ∧
    (∀ c ∈ coords, is_in_polygons c vs = some true) ∧
    map_mode mode area flex = Except.ok m

theorem loopG_full
    (scan : List Polygon → Bool → List Coord → Nat → Option (List Nat × List Coord))
    (hspec : ScanSpec scan) (mode : Option String) (coords : List Coord)
    (polygons : PolyStore) (tol flex : Bool) (area : Area) (rest : List Area)
    (st : FindSt) (vs : List Polygon) (m : String)
    (hpoly : polygons area.name = some vs)
    (hin : ∀ c ∈ coords, is_in_polygons c vs = some true)
    (hmode : map_mode mode area flex = Except.ok m) :
    findAreaLoopG scan mode coords polygons tol flex (area :: rest) st =
      some (Except.ok (area, m, none)) := by
  obtain ⟨ci, hscan, hlen⟩ := (hspec vs tol coords 0).2 hin
  unfold findAreaLoopG
  rw [hpoly]
  dsimp only
  rw [hscan]
  dsimp only
  rw [if_pos hlen, hmode]

theorem loopG_skip
    (scan : List Polygon → Bool → List Coord → Nat → Option (List Nat × List Coord))
    (hspec : ScanSpec scan) (mode : Option String) (coords : List Coord)
    (polygons : PolyStore) (tol flex : Bool) (area : Area) (rest : List Area)
    (st : FindSt)
    (hwf : ∀ vs, polygons area.name = some vs → WFPolys vs)
    (hnot : ¬ FullOk mode polygons flex coords area) :
    ∃ st2, findAreaLoopG scan mode coords polygons tol flex (area :: rest) st =
      findAreaLoopG scan mode coords polygons tol flex rest st2 := by
  cases hp : polygons area.name with
  | none =>
      refine ⟨st, ?_⟩
      simp only [findAreaLoopG]
      rw [hp]
  | some vs =>
      obtain ⟨ci, mc, hscan, hiff, hmc, hle⟩ := (hspec vs tol coords 0).1 (hwf vs hp)
      by_cases hfull : ci.length = coords.length
      · have hall := hiff.mp hfull
        cases hmm : map_mode mode area flex with
        | ok m => exact absurd ⟨vs, m, hp, hall, hmm⟩ hnot
        | error e =>
            refine ⟨st, ?_⟩
            simp only [findAreaLoopG]
            rw [hp]
            dsimp only
            rw [hscan]
            dsimp only
            rw [if_pos hfull, hmm]
      · have hmcne := hmc hfull
        cases hmcc : mc with
        | nil => exact absurd hmcc hmcne
        | cons c mcr =>
            subst hmcc
            simp only [findAreaLoopG]
            rw [hp]
            dsimp only
            rw [hscan]
            dsimp only
            rw [if_neg hfull]
            by_cases hcond :
                st.bestNumberOfCoords = 0 ∨ ci.length > st.bestNumberOfCoords
            · rw [if_pos hcond]
              dsimp only
              repeat' first
                | exact ⟨_, rfl⟩
                | split
            · rw [if_neg hcond]
              dsimp only
              repeat' first
                | exact ⟨_, rfl⟩
                | split

/-- C2: the first area in registry order that contains every input point and
whose mode mapping succeeds is returned immediately with its mapped mode and
no outlier-index list, for both values of tolerate_outlier and whatever
areas follow. -/
theorem find_area_first_full_match_wins
    (mode : Option String) (coords : List Coord) (polygons : PolyStore)
    (tol flex : Bool) (pre post : List Area) (a : Area) (vs : List Polygon)
    (m : String)
    (hwfpre : ∀ a2 ∈ pre, ∀ vs2, polygons a2.name = some vs2 → WFPolys vs2)
    (hpre : ∀ a2 ∈ pre, ¬ FullOk mode polygons flex coords a2)
    (hpoly : polygons a.name = some vs)
    (hin : ∀ c ∈ coords, is_in_polygons c vs = some true)
    (hmode : map_mode mode a flex = Except.ok m) :
    find_area mode coords polygons (pre ++ a :: post) tol flex =
      some (Except.ok (a, m, none)) := by
  have key : ∀ (pre2 : List Area) (st : FindSt),
      (∀ a2 ∈ pre2, ∀ vs2, polygons a2.name = some vs2 → WFPolys vs2) →
      (∀ a2 ∈ pre2, ¬ FullOk mode polygons flex coords a2) →
      findAreaLoopG scanCoords mode coords polygons tol flex
          (pre2 ++ a :: post) st = some (Except.ok (a, m, none)) := by
    intro pre2
    induction pre2 with
    | nil =>
        intro st _ _
        exact loopG_full scanCoords scanCoords_spec mode coords polygons tol flex
          a post st vs m hpoly hin hmode
    | cons p pr ih =>
        intro st hw hn
        obtain ⟨st2, hst2⟩ :=
          loopG_skip scanCoords scanCoords_spec mode coords polygons tol flex
            p (pr ++ a :: post) st
            (fun vs2 h2 => hw p (List.mem_cons_self p pr) vs2 h2)
            (hn p (List.mem_cons_self p pr))
        rw [List.cons_append, hst2]
        exact ih st2
          (fun a2 h2 vs2 hv => hw a2 (List.mem_cons_of_mem p h2) vs2 hv)
          (fun a2 h2 => hn a2 (List.mem_cons_of_mem p h2))
  exact key pre initSt hwfpre hpre

/-- A concrete witness instance for find_area_first_full_match_wins: the
scenario of spec section 8, a single area sg whose box contains the single
input point and whose default mode maps to 4w. -/
theorem find_area_first_full_match_wins_witness :
    find_area none [sgInside] sgStore [sgArea] false false =
      some (Except.ok (sgArea, "4w", none)) := by
  have h := find_area_first_full_match_wins none [sgInside] sgStore false false
    [] [] sgArea [sgPoly] "4w"
    (by intro a2 h2; cases h2)
    (by intro a2 h2; cases h2)
    (by with_unfolding_all decide)
    (by intro c hc
        cases hc with
        | head => with_unfolding_all decide
        | tail _ h2 => cases h2)
    (by decide)
  simpa using h

/-- An area covering a large box but with an empty default service, so its
mode mapping always fails for requests without a mode. -/
def c4Big : Area :=
  { name := "xx", default_service := "", mappings := [], flexible_setting := none }

/-- The large box polygon of c4Big, lng and lat from -30 to 60. -/
def c4BigPoly : Polygon :=
  Polygon.new [(-30, -30), (60, -30), (60, 60), (-30, 60)]

/-- An area covering only a small box around (1,1), with default service 4w. -/
def c4Small : Area :=
  { name := "sm", default_service := "4w", mappings := [], flexible_setting := none }

/-- The small box polygon of c4Small, lng and lat from 0 to 2. -/
def c4SmallPoly : Polygon :=
  Polygon.new [(0, 0), (2, 0), (2, 2), (0, 2)]

/-- The store of the full-match-abandoned scenario. -/
def c4Store : PolyStore :=
  fun n => if n = "xx" then some [c4BigPoly]
           else if n = "sm" then some [c4SmallPoly] else none

/-- A point inside both boxes. -/
def c4P0 : Coord := { lat := 1, lng := 1 }

/-- A point inside the big box only. -/
def c4P1 : Coord := { lat := 20, lng := 20 }

/-- C4: an area that contains every input point but whose mode mapping fails
is abandoned and scanning continues with an unchanged loop state; in the
concrete two-area scenario with tolerate_outlier=true, the later area that
contains only the first point but maps its mode is returned as the partial
match. -/
theorem find_area_full_match_bad_mode_continues :
    (∀ (mode : Option String) (coords : List Coord) (polygons : PolyStore)
       (tol flex : Bool) (area : Area) (rest : List Area) (st : FindSt)
       (vs : List Polygon) (err : String),
       polygons area.name = some vs →
       (∀ c ∈ coords, is_in_polygons c vs = some true) →
       map_mode mode area flex = Except.error err →
       findAreaLoopG scanCoords mode coords polygons tol flex (area :: rest) st =
         findAreaLoopG scanCoords mode coords polygons tol flex rest st) ∧
    find_area none [c4P0, c4P1] c4Store [c4Big, c4Small] true false =
      some (Except.ok (c4Small, "4w", some [0])) := by
  constructor
  · intro mode coords polygons tol flex area rest st vs err hpoly hin hmode
    obtain ⟨ci, hscan, hlen⟩ := (scanCoords_spec vs tol coords 0).2 hin
    simp only [findAreaLoopG]
    rw [hpoly]
    dsimp only
    rw [hscan]
    dsimp only
    rw [if_pos hlen, hmode]
  · with_unfolding_all decide

/-- A concrete witness instance for find_area_full_match_bad_mode_continues:
processing the fully containing area with the failing mode mapping leaves the
loop exactly where skipping it would. -/
theorem find_area_full_match_bad_mode_continues_witness :
    findAreaLoopG scanCoords none [c4P0, c4P1] c4Store true false
        [c4Big] initSt =
      findAreaLoopG scanCoords none [c4P0, c4P1] c4Store true false [] initSt :=
  find_area_full_match_bad_mode_continues.1 none [c4P0, c4P1] c4Store true false
    c4Big [] initSt [c4BigPoly] "area not supported"
    (by with_unfolding_all decide)
    (by with_unfolding_all decide)
    (by decide)

theorem loop_false_errors (mode : Option String) (coords : List Coord)
    (polygons : PolyStore) (flex : Bool) (hwf : WFStore polygons) :
    ∀ (areas : List Area) (st : FindSt), st.bestArea = none →
    (∀ a ∈ areas, ∀ vs, polygons a.name = some vs →
       ¬ ∀ c ∈ coords, is_in_polygons c vs = some true) →
    ∃ e, findAreaLoopG scanCoords mode coords polygons false flex areas st =
      some (Except.error e) := by
  intro areas
  induction areas with
  | nil =>
      intro st hba _
      simp only [findAreaLoopG]
      rw [hba]
      cases st.mappedMode <;> cases st.bestMissing <;> exact ⟨_, rfl⟩
  | cons area rest ih =>
      intro st hba hno
      cases hp : polygons area.name with
      | none =>
          obtain ⟨e, he⟩ := ih st hba
            (fun a2 h2 => hno a2 (List.mem_cons_of_mem area h2))
          refine ⟨e, ?_⟩
          simp only [findAreaLoopG]
          rw [hp]
          exact he
      | some vs =>
          obtain ⟨ci, mc, hscan, hiff, hmc, hle⟩ :=
            (scanCoords_spec vs false coords 0).1 (hwf area.name vs hp)
          have hfull : ci.length ≠ coords.length := by
            intro hlen
            exact hno area (List.mem_cons_self area rest) vs hp (hiff.mp hlen)
          have hmcne := hmc hfull
          cases hmcc : mc with
          | nil => exact absurd hmcc hmcne
          | cons c mcr =>
              subst hmcc
              have hnorest :
                  ∀ a2 ∈ rest, ∀ vs2, polygons a2.name = some vs2 →
                    ¬ ∀ c2 ∈ coords, is_in_polygons c2 vs2 = some true :=
                fun a2 h2 => hno a2 (List.mem_cons_of_mem area h2)
              by_cases hcond :
                  st.bestNumberOfCoords = 0 ∨ ci.length > st.bestNumberOfCoords
              · obtain ⟨e, he⟩ := ih
                  { st with bestMissing := some c, bestNumberOfCoords := ci.length }
                  hba hnorest
                refine ⟨e, ?_⟩
                simp only [findAreaLoopG]
                rw [hp]
                dsimp only
                rw [hscan]
                dsimp only
                rw [if_neg hfull, if_pos hcond]
                dsimp only
                by_cases h0 : ci.length = 0
                · rw [if_pos h0]; exact he
                · rw [if_neg h0]; exact he
              · obtain ⟨e, he⟩ := ih st hba hnorest
                refine ⟨e, ?_⟩
                simp only [findAreaLoopG]
                rw [hp]
                dsimp only
                rw [hscan]
                dsimp only
                rw [if_neg hfull, if_neg hcond]
                dsimp only
                by_cases h0 : ci.length = 0
                · rw [if_pos h0]; exact he
                · rw [if_neg h0]; exact he

theorem sgStore_wf : WFStore sgStore := by
  intro name vs h
  unfold sgStore at h
  by_cases hn : name = "sg"
  · rw [if_pos hn] at h
    injection h with h2
    subst h2
    unfold WFPolys
    with_unfolding_all decide
  · rw [if_neg hn] at h
    cases h

/-- C3: with tolerate_outlier=false, if no area contains every input point
then find_area fails with an error and never returns a partially matching
area; in the two-point sg scenario the error names the offending coordinate
(40,-70). -/
theorem find_area_intolerant_no_full_match_errors :
    (∀ (mode : Option String) (coords : List Coord) (polygons : PolyStore)
       (flex : Bool) (areas : List Area),
       WFStore polygons →
       (∀ a ∈ areas, ∀ vs, polygons a.name = some vs →
          ¬ ∀ c ∈ coords, is_in_polygons c vs = some true) →
       ∃ e, find_area mode coords polygons areas false flex =
         some (Except.error e)) ∧
    find_area none [sgInside, sgOutside] sgStore [sgArea] false false =
      some (Except.error "(40,-70)") := by
  constructor
  · intro mode coords polygons flex areas hwf hno
    exact loop_false_errors mode coords polygons flex hwf areas initSt rfl hno
  · with_unfolding_all decide

/-- A concrete witness instance for
find_area_intolerant_no_full_match_errors: the sg scenario with an outlier
point and tolerate_outlier=false fails. -/
theorem find_area_intolerant_no_full_match_errors_witness :
    ∃ e, find_area none [sgInside, sgOutside] sgStore [sgArea] false false =
      some (Except.error e) :=
  find_area_intolerant_no_full_match_errors.1 none [sgInside, sgOutside]
    sgStore false [sgArea] sgStore_wf
    (by
      intro a ha vs hv
      have ha2 : a = sgArea := by
        cases ha with
        | head => rfl
        | tail _ h2 => cases h2
      subst ha2
      have hv2 : vs = [sgPoly] := by
        unfold sgStore at hv
        rw [if_pos (show sgArea.name = "sg" from rfl)] at hv
        injection hv with h3
        exact h3.symm
      subst hv2
      with_unfolding_all decide)

/-- C5 counterexample: with the single area sg, the point inside its box and
the unknown requested mode truck, map_mode fails with the constant text
invalid mode input, and find_area resolves to the bare empty error, an
empty/generic error rather than a mode-invalid error naming truck. -/
theorem find_area_invalid_mode_empty_error :
    find_area (some "truck") [sgInside] sgStore [sgArea] false false =
        some (Except.error "") ∧
      map_mode (some "truck") sgArea false = Except.error "invalid mode input" ∧
      ("" : String) ≠ "invalid mode input" := by
  refine ⟨?_, by decide, by decide⟩
  with_unfolding_all decide

/-- C5 as the code has it: a requested mode that is neither a mapping key nor
the tier default makes map_mode fail with the constant error text invalid
mode input, which does not name the mode; and in the truck scenario the full
resolution then fails with the generic empty error, the failed full match
having been abandoned. -/
theorem map_mode_invalid_mode_constant_error :
    (∀ (mstr : String) (area : Area),
       mstr ≠ "" → area.mappings.lookup mstr = none →
       mstr ≠ area.default_service →
       map_mode (some mstr) area false = Except.error "invalid mode input") ∧
    find_area (some "truck") [sgInside] sgStore [sgArea] false false =
      some (Except.error "") := by
  constructor
  · intro mstr area h1 h2 h3
    unfold map_mode map_mode_tier
    rw [if_neg (by decide : ¬ (false = true))]
    dsimp only
    rw [if_pos h1, h2]
    dsimp only
    rw [if_neg h3]
  · with_unfolding_all decide

/-- A concrete witness instance for map_mode_invalid_mode_constant_error: the
truck request against the sg area. -/
theorem map_mode_invalid_mode_constant_error_witness :
    map_mode (some "truck") sgArea false = Except.error "invalid mode input" :=
  map_mode_invalid_mode_constant_error.1 "truck" sgArea (by decide) (by decide)
    (by decide)

/-- The denotation of a successful tolerate_outlier=false resolution: the
first area of the list that fully matches produces the result. -/
def FirstFull (mode : Option String) (polygons : PolyStore) (flex : Bool)
    (coords : List Coord) (areas : List Area) (r : FindResult) : Prop :=
  ∃ pre a post vs m, areas = pre ++ a :: post ∧
    (∀ x ∈ pre, ¬ FullOk mode polygons flex coords x) ∧
    polygons a.name = some vs ∧
    (∀ c ∈ coords, is_in_polygons c vs = some true) ∧
    map_mode mode a flex = Except.ok m ∧ r = (a, m, none)

theorem FirstFull_cons (mode : Option String) (polygons : PolyStore)
    (flex : Bool) (coords : List Coord) (area : Area) (rest : List Area)
    (r : FindResult) :
    FirstFull mode polygons flex coords (area :: rest) r ↔
      ((∃ vs m, polygons area.name = some vs ∧
          (∀ c ∈ coords, is_in_polygons c vs = some true) ∧
          map_mode mode area flex = Except.ok m ∧ r = (area, m, none)) ∨
       (¬ FullOk mode polygons flex coords area ∧
        FirstFull mode polygons flex coords rest r)) := by
  constructor
  · rintro ⟨pre, a, post, vs, m, heq, hpre, hpoly, hin, hmode, hr⟩
    cases pre with
    | nil =>
        simp only [List.nil_append] at heq
        injection heq with h1 h2
        subst h1
        subst h2
        exact Or.inl ⟨vs, m, hpoly, hin, hmode, hr⟩
    | cons p pr =>
        rw [List.cons_append] at heq
        injection heq with h1 h2
        subst h1
        refine Or.inr ⟨hpre area (List.mem_cons_self area pr),
          pr, a, post, vs, m, h2, ?_, hpoly, hin, hmode, hr⟩
        exact fun x hx => hpre x (List.mem_cons_of_mem area hx)
  · rintro (⟨vs, m, hpoly, hin, hmode, hr⟩ |
            ⟨hnf, pre, a, post, vs, m, heq, hpre, hpoly, hin, hmode, hr⟩)
    · exact ⟨[], area, rest, vs, m, rfl, by simp, hpoly, hin, hmode, hr⟩
    · refine ⟨area :: pre, a, post, vs, m, by rw [heq, List.cons_append], ?_,
        hpoly, hin, hmode, hr⟩
      intro x hx
      rcases List.mem_cons.mp hx with hx1 | hx2
      · rw [hx1]; exact hnf
      · exact hpre x hx2

theorem loop_false_ok_iff
    (scan : List Polygon → Bool → List Coord → Nat → Option (List Nat × List Coord))
    (hspec : ScanSpec scan) (mode : Option String) (coords : List Coord)
    (polygons : PolyStore) (flex : Bool) (hwf : WFStore polygons)
    (r : FindResult) :
    ∀ (areas : List Area) (st : FindSt), st.bestArea = none →
      (findAreaLoopG scan mode coords polygons false flex areas st =
         some (Except.ok r) ↔ FirstFull mode polygons flex coords areas r) := by
  intro areas
  induction areas with
  | nil =>
      intro st hba
      constructor
      · intro h
        exfalso
        simp only [findAreaLoopG] at h
        rw [hba] at h
        rcases hmp : st.mappedMode with _ | m <;> rw [hmp] at h <;>
          rcases hbm : st.bestMissing with _ | c <;> rw [hbm] at h <;>
            simp at h
      · rintro ⟨pre, a, post, vs, m, heq, _, _, _, _, _⟩
        cases pre <;> simp at heq
  | cons area rest ih =>
      intro st hba
      cases hp : polygons area.name with
      | none =>
          have hskip : findAreaLoopG scan mode coords polygons false flex
              (area :: rest) st =
              findAreaLoopG scan mode coords polygons false flex rest st := by
            simp only [findAreaLoopG]
            rw [hp]
          have hnf : ¬ FullOk mode polygons flex coords area := by
            rintro ⟨vs, m, hpoly, _, _⟩
            rw [hp] at hpoly
            cases hpoly
          rw [hskip, ih st hba, FirstFull_cons]
          simp [hp, hnf]
      | some vs =>
          obtain ⟨ci, mc, hscan, hiff, hmc, hle⟩ :=
            (hspec vs false coords 0).1 (hwf area.name vs hp)
          by_cases hfull : ci.length = coords.length
          · have hall := hiff.mp hfull
            cases hmm : map_mode mode area flex with
            | ok m =>
                have hloop : findAreaLoopG scan mode coords polygons false flex
                    (area :: rest) st = some (Except.ok (area, m, none)) :=
                  loopG_full scan hspec mode coords polygons false flex area rest
                    st vs m hp hall hmm
                rw [hloop, FirstFull_cons]
                constructor
                · intro h
                  have hr : r = (area, m, none) := by
                    injection h with h2
                    injection h2 with h3
                    exact h3.symm
                  exact Or.inl ⟨vs, m, hp, hall, hmm, hr⟩
                · rintro (⟨vs2, m2, hp2, hall2, hmm2, hr2⟩ | ⟨hnf, _⟩)
                  · rw [hmm] at hmm2
                    injection hmm2 with hm2
                    rw [hr2, ← hm2]
                  · exact absurd ⟨vs, m, hp, hall, hmm⟩ hnf
            | error e =>
                have hskip : findAreaLoopG scan mode coords polygons false flex
                    (area :: rest) st =
                    findAreaLoopG scan mode coords polygons false flex rest st := by
                  simp only [findAreaLoopG]
                  rw [hp]
                  dsimp only
                  rw [hscan]
                  dsimp only
                  rw [if_pos hfull, hmm]
                have hnf : ¬ FullOk mode polygons flex coords area := by
                  rintro ⟨vs2, m2, hp2, hall2, hmm2⟩
                  rw [hmm] at hmm2
                  cases hmm2
                rw [hskip, ih st hba, FirstFull_cons]
                constructor
                · intro h
                  exact Or.inr ⟨hnf, h⟩
                · rintro (⟨vs2, m2, hp2, hall2, hmm2, hr2⟩ | ⟨_, h⟩)
                  · rw [hmm] at hmm2
                    cases hmm2
                  · exact h
          · have hmcne := hmc hfull
            cases hmcc : mc with
            | nil => exact absurd hmcc hmcne
            | cons c mcr =>
                subst hmcc
                have hnf : ¬ FullOk mode polygons flex coords area := by
                  rintro ⟨vs2, m2, hp2, hall2, _⟩
                  rw [hp] at hp2
                  injection hp2 with hv2
                  subst hv2
                  exact hfull (hiff.mpr hall2)
                by_cases hcond :
                    st.bestNumberOfCoords = 0 ∨ ci.length > st.bestNumberOfCoords
                · have hskip : findAreaLoopG scan mode coords polygons false flex
                      (area :: rest) st =
                      findAreaLoopG scan mode coords polygons false flex rest
                        { st with bestMissing := some c,
                                  bestNumberOfCoords := ci.length } := by
                    simp only [findAreaLoopG]
                    rw [hp]
                    dsimp only
                    rw [hscan]
                    dsimp only
                    rw [if_neg hfull, if_pos hcond]
                    dsimp only
                    by_cases h0 : ci.length = 0
                    · rw [if_pos h0]
                    · rw [if_neg h0]
                      rfl
                  rw [hskip,
                    ih { st with bestMissing := some c,
                                 bestNumberOfCoords := ci.length } hba,
                    FirstFull_cons]
                  constructor
                  · intro h
                    exact Or.inr ⟨hnf, h⟩
                  · rintro (⟨vs2, m2, hp2, hall2, hmm2, hr2⟩ | ⟨_, h⟩)
                    · rw [hp] at hp2
                      injection hp2 with hv2
                      subst hv2
                      exact absurd (hiff.mpr hall2) hfull
                    · exact h
                · have hskip : findAreaLoopG scan mode coords polygons false flex
                      (area :: rest) st =
                      findAreaLoopG scan mode coords polygons false flex rest st := by
                    simp only [findAreaLoopG]
                    rw [hp]
                    dsimp only
                    rw [hscan]
                    dsimp only
                    rw [if_neg hfull, if_neg hcond]
                    dsimp only
                    by_cases h0 : ci.length = 0
                    · rw [if_pos h0]
                    · rw [if_neg h0]
                      rfl
                  rw [hskip, ih st hba, FirstFull_cons]
                  constructor
                  · intro h
                    exact Or.inr ⟨hnf, h⟩
                  · rintro (⟨vs2, m2, hp2, hall2, hmm2, hr2⟩ | ⟨_, h⟩)
                    · rw [hp] at hp2
                      injection hp2 with hv2
                      subst hv2
                      exact absurd (hiff.mpr hall2) hfull
                    · exact h

theorem loopG_total
    (scan : List Polygon → Bool → List Coord → Nat → Option (List Nat × List Coord))
    (hspec : ScanSpec scan) (mode : Option String) (coords : List Coord)
    (polygons : PolyStore) (tol flex : Bool) (hwf : WFStore polygons) :
    ∀ (areas : List Area) (st : FindSt),
      ∃ res, findAreaLoopG scan mode coords polygons tol flex areas st =
        some res := by
  intro areas
  induction areas with
  | nil =>
      intro st
      simp only [findAreaLoopG]
      cases st.bestArea <;> cases st.mappedMode <;> cases st.bestMissing <;>
        exact ⟨_, rfl⟩
  | cons area rest ih =>
      intro st
      cases hp : polygons area.name with
      | none =>
          obtain ⟨res, hres⟩ := ih st
          refine ⟨res, ?_⟩
          simp only [findAreaLoopG]
          rw [hp]
          exact hres
      | some vs =>
          obtain ⟨ci, mc, hscan, hiff, hmc, hle⟩ :=
            (hspec vs tol coords 0).1 (hwf area.name vs hp)
          by_cases hfull : ci.length = coords.length
          · cases hmm : map_mode mode area flex with
            | ok m =>
                refine ⟨Except.ok (area, m, none), ?_⟩
                simp only [findAreaLoopG]
                rw [hp]
                dsimp only
                rw [hscan]
                dsimp only
                rw [if_pos hfull, hmm]
            | error e =>
                obtain ⟨res, hres⟩ := ih st
                refine ⟨res, ?_⟩
                simp only [findAreaLoopG]
                rw [hp]
                dsimp only
                rw [hscan]
                dsimp only
                rw [if_pos hfull, hmm]
                exact hres
          · have hmcne := hmc hfull
            cases hmcc : mc with
            | nil => exact absurd hmcc hmcne
            | cons c mcr =>
                subst hmcc
                simp only [findAreaLoopG]
                rw [hp]
                dsimp only
                rw [hscan]
                dsimp only
                rw [if_neg hfull]
                by_cases hcond :
                    st.bestNumberOfCoords = 0 ∨ ci.length > st.bestNumberOfCoords
                · rw [if_pos hcond]
                  dsimp only
                  repeat' first
                    | exact ih _
                    | split
                · rw [if_neg hcond]
                  dsimp only
                  repeat' first
                    | exact ih _
                    | split

/-- C6 as the code has it: with tolerate_outlier=false the early break
preserves exactly which results succeed — the resolution with the break
returns Ok r precisely when the scan-everything variant does — and it fails
precisely when the variant fails; only the reported coordinate inside the
failure message may differ. -/
theorem find_area_break_preserves_success
    (mode : Option String) (coords : List Coord) (polygons : PolyStore)
    (flex : Bool) (areas : List Area) (hwf : WFStore polygons) :
    (∀ r : FindResult,
       find_area mode coords polygons areas false flex =
           some (Except.ok r) ↔
         find_area_all mode coords polygons areas false flex =
           some (Except.ok r)) ∧
    ((∃ e, find_area mode coords polygons areas false flex =
        some (Except.error e)) ↔
     (∃ e, find_area_all mode coords polygons areas false flex =
        some (Except.error e))) := by
  have hok : ∀ r : FindResult,
      find_area mode coords polygons areas false flex = some (Except.ok r) ↔
        find_area_all mode coords polygons areas false flex =
          some (Except.ok r) := by
    intro r
    unfold find_area find_area_all
    rw [loop_false_ok_iff scanCoords scanCoords_spec mode coords polygons flex
          hwf r areas initSt rfl,
        loop_false_ok_iff scanCoordsAll scanCoordsAll_spec mode coords polygons
          flex hwf r areas initSt rfl]
  refine ⟨hok, ?_⟩
  have h1 := loopG_total scanCoords scanCoords_spec mode coords polygons false
    flex hwf areas initSt
  have h2 := loopG_total scanCoordsAll scanCoordsAll_spec mode coords polygons
    false flex hwf areas initSt
  constructor
  · rintro ⟨e, he⟩
    obtain ⟨res, hres⟩ := h2
    cases res with
    | ok r2 =>
        have := (hok r2).mpr hres
        rw [he] at this
        cases this
    | error e2 => exact ⟨e2, hres⟩
  · rintro ⟨e, he⟩
    obtain ⟨res, hres⟩ := h1
    cases res with
    | ok r2 =>
        have := (hok r2).mp hres
        rw [he] at this
        cases this
    | error e2 => exact ⟨e2, hres⟩

/-- The first area of the break counterexample, a box with lng and lat from 9
to 13 containing the second and third input points only. -/
def c6A : Area :=
  { name := "A", default_service := "4w", mappings := [], flexible_setting := none }

/-- The polygon of c6A. -/
def c6APoly : Polygon :=
  Polygon.new [(9, 9), (13, 9), (13, 13), (9, 13)]

/-- The second area of the break counterexample, a box with lng and lat from
-1 to 1 containing the first input point only. -/
def c6B : Area :=
  { name := "B", default_service := "4w", mappings := [], flexible_setting := none }

/-- The polygon of c6B. -/
def c6BPoly : Polygon :=
  Polygon.new [(-1, -1), (1, -1), (1, 1), (-1, 1)]

/-- The store of the break counterexample. -/
def c6Store : PolyStore :=
  fun n => if n = "A" then some [c6APoly]
           else if n = "B" then some [c6BPoly] else none

/-- The first input point, inside c6B only. -/
def c6Q0 : Coord := { lat := 0, lng := 0 }

/-- The second input point, inside c6A only. -/
def c6Q1 : Coord := { lat := 10, lng := 10 }

/-- The third input point, inside c6A only. -/
def c6Q2 : Coord := { lat := 11, lng := 11 }

/-- C6 counterexample: with tolerate_outlier=false the early break is not
observationally pure — on three points and two areas both variants fail, but
the break variant reports coordinate (10,10) while the scan-everything
variant reports (0,0), so the two results differ. -/
theorem find_area_break_changes_reported_coord :
    find_area none [c6Q0, c6Q1, c6Q2] c6Store [c6A, c6B] false false =
        some (Except.error "(10,10)") ∧
      find_area_all none [c6Q0, c6Q1, c6Q2] c6Store [c6A, c6B] false false =
        some (Except.error "(0,0)") ∧
      find_area none [c6Q0, c6Q1, c6Q2] c6Store [c6A, c6B] false false ≠
        find_area_all none [c6Q0, c6Q1, c6Q2] c6Store [c6A, c6B] false false := by
  refine ⟨?_, ?_, ?_⟩ <;> with_unfolding_all decide

theorem c6Store_wf : WFStore c6Store := by
  intro name vs h
  unfold c6Store at h
  by_cases h1 : name = "A"
  · rw [if_pos h1] at h
    injection h with h2
    subst h2
    unfold WFPolys
    with_unfolding_all decide
  · rw [if_neg h1] at h
    by_cases h2 : name = "B"
    · rw [if_pos h2] at h
      injection h with h3
      subst h3
      unfold WFPolys
      with_unfolding_all decide
    · rw [if_neg h2] at h
      cases h

/-- A concrete witness instance for find_area_break_preserves_success: on the
two-area three-point scenario both variants fail. -/
theorem find_area_break_preserves_success_witness :
    (∀ r : FindResult,
       find_area none [c6Q0, c6Q1, c6Q2] c6Store [c6A, c6B] false false =
           some (Except.ok r) ↔
         find_area_all none [c6Q0, c6Q1, c6Q2] c6Store [c6A, c6B] false false =
           some (Except.ok r)) ∧
    ((∃ e, find_area none [c6Q0, c6Q1, c6Q2] c6Store [c6A, c6B] false false =
        some (Except.error e)) ↔
     (∃ e, find_area_all none [c6Q0, c6Q1, c6Q2] c6Store [c6A, c6B] false false =
        some (Except.error e))) :=
  find_area_break_preserves_success none [c6Q0, c6Q1, c6Q2] c6Store false
    [c6A, c6B] c6Store_wf

/-- The number of contained coordinates an area can contribute as a partial
candidate: zero when its polygons are absent or its mode mapping fails. -/
def pcount (mode : Option String) (polygons : PolyStore) (flex : Bool)
    (coords : List Coord) (a : Area) : Nat :=
  match polygons a.name with
  | none => 0
  | some vs =>
      match map_mode mode a flex with
      | Except.ok _ => (containedIdx coords vs).length
      | Except.error _ => 0

/-- The best partial candidate in the sense of spec section 4.4 step 5: a
position in the list with strictly more contained points than every earlier
area and at least as many as every later one. -/
def FirstBest (mode : Option String) (polygons : PolyStore) (flex : Bool)
    (coords : List Coord) (areas : List Area) (a : Area) : Prop :=
  ∃ pre post, areas = pre ++ a :: post ∧
    (∀ x ∈ pre, pcount mode polygons flex coords x <
       pcount mode polygons flex coords a) ∧
    (∀ x ∈ post, pcount mode polygons flex coords x ≤
       pcount mode polygons flex coords a)

/-- The loop invariant of the best-partial-candidate tracking: either nothing
is tracked and no processed area could contribute, or the tracked area is the
strictly-first best of the processed prefix. -/
def BestInv (mode : Option String) (polygons : PolyStore) (flex : Bool)
    (coords : List Coord) (processed : List Area) (st : FindSt) : Prop :=
  (st.bestArea = none ∧ st.mappedMode = none ∧ st.bestCoordIndex = [] ∧
     ∀ x ∈ processed, pcount mode polygons flex coords x = 0) ∨
  (∃ a vs m pre post, st.bestArea = some a ∧ st.mappedMode = some m ∧
     polygons a.name = some vs ∧ map_mode mode a flex = Except.ok m ∧
     st.bestCoordIndex = containedIdx coords vs ∧
     st.bestCoordIndex.length = pcount mode polygons flex coords a ∧
     0 < pcount mode polygons flex coords a ∧
     processed = pre ++ a :: post ∧
     (∀ x ∈ pre, pcount mode polygons flex coords x <
        pcount mode polygons flex coords a) ∧
     (∀ x ∈ post, pcount mode polygons flex coords x ≤
        pcount mode polygons flex coords a))

theorem scanCoords_true_eq0 (vs : List Polygon) (h : WFPolys vs)
    (coords : List Coord) :
    scanCoords vs true coords 0 =
      some (containedIdx coords vs,
            coords.filter (fun c => is_in_polygons c vs == some false)) :=
  scanCoords_true_eq vs h coords 0

theorem containedIdx_length_iff (vs : List Polygon) (coords : List Coord)
    (hwf : WFPolys vs) :
    (containedIdx coords vs).length = coords.length ↔
      ∀ c ∈ coords, is_in_polygons c vs = some true := by
  obtain ⟨ci, mc, hscan, hiff, _, _⟩ := (scanCoords_spec vs true coords 0).1 hwf
  rw [scanCoords_true_eq0 vs hwf coords] at hscan
  injection hscan with h2
  have h3 : ci = containedIdx coords vs := by
    have := congrArg Prod.fst h2
    exact this.symm
  rw [h3] at hiff
  exact hiff

theorem missing_ne_nil (vs : List Polygon) (coords : List Coord)
    (hwf : WFPolys vs)
    (hno : ¬ ∀ c ∈ coords, is_in_polygons c vs = some true) :
    coords.filter (fun c => is_in_polygons c vs == some false) ≠ [] := by
  have hex : ∃ c ∈ coords, is_in_polygons c vs = some false := by
    by_contra hcon
    push_neg at hcon
    apply hno
    intro c hc
    obtain ⟨b, hb⟩ := is_in_polygons_total c vs hwf
    cases b with
    | true => exact hb
    | false => exact absurd hb (hcon c hc)
  obtain ⟨c, hc, hcf⟩ := hex
  intro hnil
  have hmem : c ∈ coords.filter (fun c => is_in_polygons c vs == some false) :=
    List.mem_filter.mpr ⟨hc, by rw [hcf]; rfl⟩
  rw [hnil] at hmem
  cases hmem

theorem pcount_none {mode : Option String} {polygons : PolyStore} {flex : Bool}
    {coords : List Coord} {a : Area} (hp : polygons a.name = none) :
    pcount mode polygons flex coords a = 0 := by
  unfold pcount
  rw [hp]

theorem pcount_ok {mode : Option String} {polygons : PolyStore} {flex : Bool}
    {coords : List Coord} {a : Area} {vs : List Polygon} {m : String}
    (hp : polygons a.name = some vs)
    (hm : map_mode mode a flex = Except.ok m) :
    pcount mode polygons flex coords a = (containedIdx coords vs).length := by
  unfold pcount
  rw [hp, hm]

theorem pcount_err {mode : Option String} {polygons : PolyStore} {flex : Bool}
    {coords : List Coord} {a : Area} {vs : List Polygon} {e : String}
    (hp : polygons a.name = some vs)
    (hm : map_mode mode a flex = Except.error e) :
    pcount mode polygons flex coords a = 0 := by
  unfold pcount
  rw [hp, hm]

theorem pcount_le {mode : Option String} {polygons : PolyStore} {flex : Bool}
    {coords : List Coord} {a : Area} {vs : List Polygon}
    (hp : polygons a.name = some vs) :
    pcount mode polygons flex coords a ≤ (containedIdx coords vs).length := by
  unfold pcount
  rw [hp]
  cases map_mode mode a flex with
  | ok m => exact Nat.le_refl _
  | error e => exact Nat.zero_le _

theorem BestInv_fields {mode : Option String} {polygons : PolyStore}
    {flex : Bool} {coords : List Coord} {processed : List Area}
    {st st1 : FindSt}
    (h1 : st1.bestArea = st.bestArea)
    (h2 : st1.bestCoordIndex = st.bestCoordIndex)
    (h3 : st1.mappedMode = st.mappedMode)
    (hinv : BestInv mode polygons flex coords processed st) :
    BestInv mode polygons flex coords processed st1 := by
  rcases hinv with ⟨ha, hm, hc, hall⟩ | ⟨a, vs, m, pre, post, ha, hm, hp, hmap,
    hc, hlen, hpos, hproc, hpre, hpost⟩
  · exact Or.inl ⟨h1.trans ha, h3.trans hm, h2.trans hc, hall⟩
  · exact Or.inr ⟨a, vs, m, pre, post, h1.trans ha, h3.trans hm, hp, hmap,
      h2.trans hc, h2 ▸ hlen, hpos, hproc, hpre, hpost⟩

theorem BestInv_extend_zero {mode : Option String} {polygons : PolyStore}
    {flex : Bool} {coords : List Coord} {processed : List Area} {st : FindSt}
    {area : Area}
    (hz : pcount mode polygons flex coords area = 0)
    (hinv : BestInv mode polygons flex coords processed st) :
    BestInv mode polygons flex coords (processed ++ [area]) st := by
  rcases hinv with ⟨ha, hm, hc, hall⟩ | ⟨a, vs, m, pre, post, ha, hm, hp, hmap,
    hc, hlen, hpos, hproc, hpre, hpost⟩
  · refine Or.inl ⟨ha, hm, hc, ?_⟩
    intro x hx
    rcases List.mem_append.mp hx with hx1 | hx2
    · exact hall x hx1
    · rw [List.mem_singleton.mp hx2]
      exact hz
  · refine Or.inr ⟨a, vs, m, pre, post ++ [area], ha, hm, hp, hmap, hc, hlen,
      hpos, ?_, hpre, ?_⟩
    · rw [hproc, List.append_assoc]
      rfl
    · intro x hx
      rcases List.mem_append.mp hx with hx1 | hx2
      · exact hpost x hx1
      · rw [List.mem_singleton.mp hx2, hz]
        exact Nat.zero_le _

theorem loop_best (mode : Option String) (coords : List Coord)
    (polygons : PolyStore) (flex : Bool) (hwf : WFStore polygons) :
    ∀ (remaining processed : List Area) (st : FindSt),
    BestInv mode polygons flex coords processed st →
    (∀ a2 ∈ remaining, ∀ vs2, polygons a2.name = some vs2 →
       ¬ ∀ c ∈ coords, is_in_polygons c vs2 = some true) →
    ((∃ a2 ∈ remaining, 0 < pcount mode polygons flex coords a2) ∨
       st.bestArea ≠ none) →
    ∃ a vs m,
      findAreaLoopG scanCoords mode coords polygons true flex remaining st =
        some (Except.ok (a, m, some (containedIdx coords vs))) ∧
      polygons a.name = some vs ∧ map_mode mode a flex = Except.ok m ∧
      containedIdx coords vs ≠ [] ∧
      FirstBest mode polygons flex coords (processed ++ remaining) a := by
  intro remaining
  induction remaining with
  | nil =>
      intro processed st hinv hno hcand
      rcases hcand with ⟨a2, ha2, _⟩ | hsome
      · cases ha2
      · rcases hinv with ⟨hba, _, _, _⟩ | ⟨a0, vs0, m0, pre0, post0, hba, hmm,
          hp0, hmap0, hci, hlen, hpos, hproc, hpre, hpost⟩
        · exact absurd hba hsome
        · refine ⟨a0, vs0, m0, ?_, hp0, hmap0, ?_, ?_⟩
          · simp only [findAreaLoopG]
            rw [hba, hmm, hci]
          · have hlp : 0 < (containedIdx coords vs0).length := by
              rw [← hci, hlen]
              exact hpos
            exact List.length_pos.mp hlp
          · exact ⟨pre0, post0, by rw [List.append_nil, hproc], hpre, hpost⟩
  | cons area rest ih =>
      intro processed st hinv hno hcand
      have hnorest : ∀ a2 ∈ rest, ∀ vs2, polygons a2.name = some vs2 →
          ¬ ∀ c ∈ coords, is_in_polygons c vs2 = some true :=
        fun a2 h2 => hno a2 (List.mem_cons_of_mem area h2)
      cases hp : polygons area.name with
      | none =>
          have hpc : pcount mode polygons flex coords area = 0 :=
            pcount_none hp
          have hstep : findAreaLoopG scanCoords mode coords polygons true flex
              (area :: rest) st =
              findAreaLoopG scanCoords mode coords polygons true flex rest st := by
            simp only [findAreaLoopG]
            rw [hp]
          have hcand2 : (∃ a2 ∈ rest, 0 < pcount mode polygons flex coords a2) ∨
              st.bestArea ≠ none := by
            rcases hcand with ⟨a2, ha2, hpos2⟩ | hsome
            · rcases List.mem_cons.mp ha2 with ha2e | ha2r
              · rw [ha2e, hpc] at hpos2
                cases hpos2
              · exact Or.inl ⟨a2, ha2r, hpos2⟩
            · exact Or.inr hsome
          obtain ⟨a, vs2, m, h1, h2, h3, h4, h5⟩ :=
            ih (processed ++ [area]) st (BestInv_extend_zero hpc hinv)
              hnorest hcand2
          rw [hstep]
          exact ⟨a, vs2, m, h1, h2, h3, h4,
            by simpa [List.append_assoc] using h5⟩
      | some vs =>
          have hwfvs : WFPolys vs := hwf area.name vs hp
          have hnohead := hno area (List.mem_cons_self area rest) vs hp
          have hscan := scanCoords_true_eq0 vs hwfvs coords
          have hfull : ¬ (containedIdx coords vs).length = coords.length := by
            intro hl
            exact hnohead ((containedIdx_length_iff vs coords hwfvs).mp hl)
          have hmcne := missing_ne_nil vs coords hwfvs hnohead
          cases hmcc : coords.filter (fun c => is_in_polygons c vs == some false) with
          | nil => exact absurd hmcc hmcne
          | cons c mcr =>
              rw [hmcc] at hscan
              simp only [findAreaLoopG]
              rw [hp]
              dsimp only
              rw [hscan]
              dsimp only
              rw [if_neg hfull]
              have hopt : ∃ st1 : FindSt,
                  (if st.bestNumberOfCoords = 0 ∨
                      (containedIdx coords vs).length > st.bestNumberOfCoords then
                     some { st with
                              bestMissing := some c,
                              bestNumberOfCoords := (containedIdx coords vs).length }
                   else some st) = some st1 ∧
                  st1.bestArea = st.bestArea ∧
                  st1.bestCoordIndex = st.bestCoordIndex ∧
                  st1.mappedMode = st.mappedMode := by
                by_cases hcond : st.bestNumberOfCoords = 0 ∨
                    (containedIdx coords vs).length > st.bestNumberOfCoords
                · refine ⟨{ st with
                              bestMissing := some c,
                              bestNumberOfCoords :=
                                (containedIdx coords vs).length },
                    ?_, rfl, rfl, rfl⟩
                  rw [if_pos hcond]
                · refine ⟨st, ?_, rfl, rfl, rfl⟩
                  rw [if_neg hcond]
              obtain ⟨st1, hst1, hf1, hf2, hf3⟩ := hopt
              rw [hst1]
              dsimp only
              have hinv1 : BestInv mode polygons flex coords processed st1 :=
                BestInv_fields hf1 hf2 hf3 hinv
              by_cases h0 : (containedIdx coords vs).length = 0
              · rw [if_pos h0]
                have hpc : pcount mode polygons flex coords area = 0 :=
                  Nat.le_antisymm (h0 ▸ pcount_le hp) (Nat.zero_le _)
                have hcand2 : (∃ a2 ∈ rest,
                    0 < pcount mode polygons flex coords a2) ∨
                    st1.bestArea ≠ none := by
                  rcases hcand with ⟨a2, ha2, hpos2⟩ | hsome
                  · rcases List.mem_cons.mp ha2 with ha2e | ha2r
                    · rw [ha2e, hpc] at hpos2
                      cases hpos2
                    · exact Or.inl ⟨a2, ha2r, hpos2⟩
                  · exact Or.inr (hf1 ▸ hsome)
                obtain ⟨a, vs2, m, h1, h2, h3, h4, h5⟩ :=
                  ih (processed ++ [area]) st1 (BestInv_extend_zero hpc hinv1)
                    hnorest hcand2
                exact ⟨a, vs2, m, h1, h2, h3, h4,
                  by simpa [List.append_assoc] using h5⟩
              · rw [if_neg h0]
                rw [if_neg (by decide : ¬ ((!true) = true))]
                by_cases hgt :
                    (containedIdx coords vs).length > st1.bestCoordIndex.length
                · rw [if_pos hgt]
                  cases hmap : map_mode mode area flex with
                  | ok m2 =>
                      have hpc : pcount mode polygons flex coords area =
                          (containedIdx coords vs).length := pcount_ok hp hmap
                      have hposa : 0 < pcount mode polygons flex coords area := by
                        rw [hpc]
                        exact Nat.pos_of_ne_zero h0
                      have hlt : ∀ x ∈ processed,
                          pcount mode polygons flex coords x <
                            pcount mode polygons flex coords area := by
                        intro x hx
                        rcases hinv with ⟨_, _, hc0, hall⟩ | ⟨a0, vs0, m0, pre0,
                          post0, _, _, _, _, _, hlen0, _, hproc0, hpre0, hpost0⟩
                        · rw [hall x hx]
                          exact hposa
                        · have hgt2 : pcount mode polygons flex coords a0 <
                              pcount mode polygons flex coords area := by
                            rw [hpc, ← hlen0]
                            rw [hf2] at hgt
                            exact hgt
                          rw [hproc0] at hx
                          rcases List.mem_append.mp hx with hx1 | hx2
                          · exact Nat.lt_trans (hpre0 x hx1) hgt2
                          · rcases List.mem_cons.mp hx2 with hx3 | hx4
                            · rw [hx3]
                              exact hgt2
                            · exact Nat.lt_of_le_of_lt (hpost0 x hx4) hgt2
                      have hinv2 : BestInv mode polygons flex coords
                          (processed ++ [area])
                          { st1 with
                              bestArea := some area,
                              bestCoordIndex := containedIdx coords vs,
                              mappedMode := some m2 } :=
                        Or.inr ⟨area, vs, m2, processed, [], rfl, rfl, hp, hmap,
                          rfl, hpc.symm, hposa, rfl, hlt, by intro x hx; cases hx⟩
                      obtain ⟨a, vs2, m, h1, h2, h3, h4, h5⟩ :=
                        ih (processed ++ [area]) _ hinv2 hnorest
                          (Or.inr (by intro hcon; cases hcon))
                      exact ⟨a, vs2, m, h1, h2, h3, h4,
                        by simpa [List.append_assoc] using h5⟩
                  | error e2 =>
                      have hpc : pcount mode polygons flex coords area = 0 :=
                        pcount_err hp hmap
                      have hcand2 : (∃ a2 ∈ rest,
                          0 < pcount mode polygons flex coords a2) ∨
                          st1.bestArea ≠ none := by
                        rcases hcand with ⟨a2, ha2, hpos2⟩ | hsome
                        · rcases List.mem_cons.mp ha2 with ha2e | ha2r
                          · rw [ha2e, hpc] at hpos2
                            cases hpos2
                          · exact Or.inl ⟨a2, ha2r, hpos2⟩
                        · exact Or.inr (hf1 ▸ hsome)
                      obtain ⟨a, vs2, m, h1, h2, h3, h4, h5⟩ :=
                        ih (processed ++ [area]) st1
                          (BestInv_extend_zero hpc hinv1) hnorest hcand2
                      exact ⟨a, vs2, m, h1, h2, h3, h4,
                        by simpa [List.append_assoc] using h5⟩
                · rw [if_neg hgt]
                  have hinvr : ∃ a0 vs0 m0 pre0 post0,
                      st1.bestArea = some a0 ∧ st1.mappedMode = some m0 ∧
                      polygons a0.name = some vs0 ∧
                      map_mode mode a0 flex = Except.ok m0 ∧
                      st1.bestCoordIndex = containedIdx coords vs0 ∧
                      st1.bestCoordIndex.length =
                        pcount mode polygons flex coords a0 ∧
                      0 < pcount mode polygons flex coords a0 ∧
                      processed = pre0 ++ a0 :: post0 ∧
                      (∀ x ∈ pre0, pcount mode polygons flex coords x <
                         pcount mode polygons flex coords a0) ∧
                      (∀ x ∈ post0, pcount mode polygons flex coords x ≤
                         pcount mode polygons flex coords a0) := by
                    rcases hinv1 with ⟨_, _, hc0, _⟩ | hr
                    · exfalso
                      apply hgt
                      rw [hc0]
                      exact Nat.pos_of_ne_zero h0
                    · exact hr
                  obtain ⟨a0, vs0, m0, pre0, post0, hba0, hmm0, hp0, hmap0, hci0,
                    hlen0, hpos0, hproc0, hpre0, hpost0⟩ := hinvr
                  have hpcle : pcount mode polygons flex coords area ≤
                      pcount mode polygons flex coords a0 := by
                    have h1 : pcount mode polygons flex coords area ≤
                        (containedIdx coords vs).length := pcount_le hp
                    have h2 : (containedIdx coords vs).length ≤
                        pcount mode polygons flex coords a0 := by
                      rw [← hlen0]
                      exact Nat.le_of_not_lt hgt
                    exact Nat.le_trans h1 h2
                  have hinv2 : BestInv mode polygons flex coords
                      (processed ++ [area]) st1 := by
                    refine Or.inr ⟨a0, vs0, m0, pre0, post0 ++ [area], hba0,
                      hmm0, hp0, hmap0, hci0, hlen0, hpos0, ?_, hpre0, ?_⟩
                    · rw [hproc0, List.append_assoc]
                      rfl
                    · intro x hx
                      rcases List.mem_append.mp hx with hx1 | hx2
                      · exact hpost0 x hx1
                      · rw [List.mem_singleton.mp hx2]
                        exact hpcle
                  obtain ⟨a, vs2, m, h1, h2, h3, h4, h5⟩ :=
                    ih (processed ++ [area]) st1 hinv2 hnorest
                      (Or.inr (by rw [hba0]; intro hcon; cases hcon))
                  exact ⟨a, vs2, m, h1, h2, h3, h4,
                    by simpa [List.append_assoc] using h5⟩

/-- C1 counterexample: in the spec scenario (area sg, points (1.30,103.85)
and (40,-70), tolerate_outlier=true) find_area returns index list [0] — the
indices of the coordinates contained in the returned area — and not the
outlier index list [1] the claim states. -/
theorem find_area_sg_partial_not_outlier_indices :
    find_area none [sgInside, sgOutside] sgStore [sgArea] true false =
        some (Except.ok (sgArea, "4w", some [0])) ∧
      find_area none [sgInside, sgOutside] sgStore [sgArea] true false ≠
        some (Except.ok (sgArea, "4w", some [1])) := by
  constructor <;> with_unfolding_all decide

/-- C1 as the code has it: with tolerate_outlier=true, when no area contains
every point but some area has a positive candidate count (some contained
points and a working mode mapping), find_area returns the first best such
candidate together with the indices of the coordinates contained in it (not
the outliers); in the sg scenario the returned list is [0]. -/
theorem find_area_best_partial_contained_indices :
    (∀ (mode : Option String) (coords : List Coord) (polygons : PolyStore)
       (flex : Bool) (areas : List Area),
       WFStore polygons →
       (∀ a ∈ areas, ∀ vs, polygons a.name = some vs →
          ¬ ∀ c ∈ coords, is_in_polygons c vs = some true) →
       (∃ a ∈ areas, 0 < pcount mode polygons flex coords a) →
       ∃ a vs m,
         find_area mode coords polygons areas true flex =
           some (Except.ok (a, m, some (containedIdx coords vs))) ∧
         polygons a.name = some vs ∧ map_mode mode a flex = Except.ok m ∧
         containedIdx coords vs ≠ [] ∧
         FirstBest mode polygons flex coords areas a) ∧
    find_area none [sgInside, sgOutside] sgStore [sgArea] true false =
      some (Except.ok (sgArea, "4w", some [0])) := by
  constructor
  · intro mode coords polygons flex areas hwf hno hcand
    obtain ⟨a, vs, m, h1, h2, h3, h4, h5⟩ :=
      loop_best mode coords polygons flex hwf areas [] initSt
        (Or.inl ⟨rfl, rfl, rfl, by intro x hx; cases hx⟩) hno (Or.inl hcand)
    exact ⟨a, vs, m, h1, h2, h3, h4, by simpa using h5⟩
  · with_unfolding_all decide

theorem sg_scenario_no_full :
    ∀ a ∈ [sgArea], ∀ vs, sgStore a.name = some vs →
      ¬ ∀ c ∈ [sgInside, sgOutside], is_in_polygons c vs = some true := by
  intro a ha vs hv
  have ha2 : a = sgArea := by
    cases ha with
    | head => rfl
    | tail _ h2 => cases h2
  subst ha2
  have hv2 : vs = [sgPoly] := by
    unfold sgStore at hv
    rw [if_pos (show sgArea.name = "sg" from rfl)] at hv
    injection hv with h3
    exact h3.symm
  subst hv2
  with_unfolding_all decide

/-- A concrete witness instance for
find_area_best_partial_contained_indices: the sg scenario has a positive
candidate and resolves to a partial match. -/
theorem find_area_best_partial_contained_indices_witness :
    ∃ a vs m,
      find_area none [sgInside, sgOutside] sgStore [sgArea] true false =
        some (Except.ok
          (a, m, some (containedIdx [sgInside, sgOutside] vs))) ∧
      sgStore a.name = some vs ∧ map_mode none a false = Except.ok m ∧
      containedIdx [sgInside, sgOutside] vs ≠ [] ∧
      FirstBest none sgStore false [sgInside, sgOutside] [sgArea] a :=
  find_area_best_partial_contained_indices.1 none [sgInside, sgOutside]
    sgStore false [sgArea] sgStore_wf sg_scenario_no_full
    ⟨sgArea, List.mem_cons_self sgArea [],
      by unfold pcount; with_unfolding_all decide⟩

/-- C7: the error translator always returns one of the public AdaptError
strings — it never fails — and a backend code outside either engine's fixed
code table degrades to the unclassified catch-all string, while a backend
message outside the fixed message table maps to the unknown catch-all
variant. -/
theorem handle_error_message_total_catchall (engine code message : String) :
    (∃ a : AdaptError, handle_error_message engine code message =
        AdaptError.toString a) ∧
    (code ∉ valhallaCodes →
       error_handle_valhalla code message =
         AdaptError.toString AdaptError.OutputUnclassifiedError) ∧
    (code ∉ osrmCodes →
       error_handle_osrm code message =
         AdaptError.toString AdaptError.OutputUnclassifiedError) ∧
    (message ∉ knownEngineMessages →
       adapt_err_message message = EngineError.InputUnknown) := by
  refine ⟨?_, ?_, ?_, ?_⟩
  · unfold handle_error_message
    cases engine_mode_input engine with
    | OSRM =>
        unfold error_handle_osrm handle_osrm_err_message
        exact ⟨_, rfl⟩
    | Valhalla =>
        unfold error_handle_valhalla handle_valhalla_err_message
        exact ⟨_, rfl⟩
  · intro hc
    simp only [valhallaCodes, List.mem_cons, List.not_mem_nil, or_false,
      not_or] at hc
    obtain ⟨h1, h2, h3, h4, h5, h6, h7, h8, h9, h10, h11, h12, h13, h14, h15⟩ :=
      hc
    unfold error_handle_valhalla
    rw [if_neg h1, if_neg h2, if_neg h3, if_neg h4, if_neg h5, if_neg h6,
      if_neg h7, if_neg h8, if_neg h9, if_neg h10, if_neg h11, if_neg h12,
      if_neg h13, if_neg h14, if_neg h15]
    rfl
  · intro hc
    simp only [osrmCodes, List.mem_cons, List.not_mem_nil, or_false,
      not_or] at hc
    obtain ⟨h1, h2, h3, h4, h5, h6, h7, h8, h9⟩ := hc
    unfold error_handle_osrm
    rw [if_neg h1, if_neg h2, if_neg h3, if_neg h4, if_neg h5, if_neg h6,
      if_neg h7, if_neg h8, if_neg h9]
    rfl
  · intro hm
    simp only [knownEngineMessages, List.mem_cons, List.not_mem_nil, or_false,
      not_or] at hm
    obtain ⟨h1, h2, h3, h4, h5, h6, h7, h8, h9, h10, h11⟩ := hm
    unfold adapt_err_message
    rw [if_neg h1, if_neg h2, if_neg h3, if_neg h4, if_neg h5, if_neg h6,
      if_neg h7, if_neg h8, if_neg h9, if_neg h10, if_neg h11]

/-- A concrete witness instance for handle_error_message_total_catchall: an
unrecognized code and message degrade to the unclassified and unknown
catch-alls. -/
theorem handle_error_message_total_catchall_witness :
    (∃ a : AdaptError, handle_error_message "valhalla" "Weird Code" "odd text" =
        AdaptError.toString a) ∧
      error_handle_valhalla "Weird Code" "odd text" =
        AdaptError.toString AdaptError.OutputUnclassifiedError ∧
      error_handle_osrm "Weird Code" "odd text" =
        AdaptError.toString AdaptError.OutputUnclassifiedError ∧
      adapt_err_message "odd text" = EngineError.InputUnknown := by
  obtain ⟨w1, w2, w3, w4⟩ :=
    handle_error_message_total_catchall "valhalla" "Weird Code" "odd text"
  exact ⟨w1, w2 (by decide), w3 (by decide), w4 (by decide)⟩

theorem leBytes4_mod (n : Nat) : leBytes4 (n % 2 ^ 32) = leBytes4 n := by
  have h32 : (2 : Nat) ^ 32 = 4294967296 := by norm_num
  simp only [leBytes4, h32, List.cons.injEq]
  norm_num
  omega

theorem encode_length (duration distance : Nat) :
    (encode duration distance).length = 8 := rfl

theorem elements_foldl_length (elems : List Element) (init : List Nat) :
    (elems.foldl
      (fun acc2 e =>
        acc2 ++ encode (e.duration.value % 2 ^ 32) (e.distance.value % 2 ^ 32))
      init).length = init.length + 8 * elems.length := by
  induction elems generalizing init with
  | nil => simp
  | cons e rest ih =>
      rw [List.foldl_cons, ih]
      simp [List.length_append, encode_length]
      ring

theorem rows_foldl_length (rows : List Row) (init : List Nat) :
    (rows.foldl
      (fun acc row =>
        row.elements.foldl
          (fun acc2 e =>
            acc2 ++ encode (e.duration.value % 2 ^ 32)
              (e.distance.value % 2 ^ 32))
          acc)
      init).length =
      init.length + 8 * (rows.map (fun r => r.elements.length)).sum := by
  induction rows generalizing init with
  | nil => simp
  | cons r rest ih =>
      rw [List.foldl_cons, ih, elements_foldl_length]
      simp [List.sum_cons]
      ring

theorem elements_foldl_prefix (elems : List Element) (init : List Nat) :
    ∃ t, elems.foldl
      (fun acc2 e =>
        acc2 ++ encode (e.duration.value % 2 ^ 32) (e.distance.value % 2 ^ 32))
      init = init ++ t := by
  induction elems generalizing init with
  | nil => exact ⟨[], by simp⟩
  | cons e rest ih =>
      obtain ⟨t, ht⟩ := ih (init ++ encode (e.duration.value % 2 ^ 32)
        (e.distance.value % 2 ^ 32))
      exact ⟨_, by rw [List.foldl_cons, ht, List.append_assoc]⟩

theorem rows_foldl_prefix (rows : List Row) (init : List Nat) :
    ∃ t, rows.foldl
      (fun acc row =>
        row.elements.foldl
          (fun acc2 e =>
            acc2 ++ encode (e.duration.value % 2 ^ 32)
              (e.distance.value % 2 ^ 32))
          acc)
      init = init ++ t := by
  induction rows generalizing init with
  | nil => exact ⟨[], by simp⟩
  | cons r rest ih =>
      obtain ⟨t1, ht1⟩ := elements_foldl_prefix r.elements init
      obtain ⟨t2, ht2⟩ := ih (init ++ t1)
      refine ⟨t1 ++ t2, ?_⟩
      rw [List.foldl_cons, ht1, ht2, List.append_assoc]

/-- C9: encode produces exactly 8 bytes, the duration in the first four
little-endian bytes and the distance in the last four; encode 65 1200 is the
spec byte string; and binary_encode starts with a header record of (row
count, column count) in the same layout. -/
theorem encode_le_bytes_spec :
    (∀ duration distance : Nat, (encode duration distance).length = 8) ∧
    (∀ duration distance : Nat, duration < 2 ^ 32 → distance < 2 ^ 32 →
       fromLE4 ((encode duration distance).take 4) = duration ∧
       fromLE4 ((encode duration distance).drop 4) = distance) ∧
    encode 65 1200 = [65, 0, 0, 0, 176, 4, 0, 0] ∧
    (∀ (m : MatrixOutput) (r0 : Row) (rs : List Row), m.rows = r0 :: rs →
       ∃ bs, binary_encode m = some bs ∧
         bs.take 8 = encode m.rows.length r0.elements.length) := by
  have h32 : (2 : Nat) ^ 32 = 4294967296 := by norm_num
  refine ⟨fun _ _ => rfl, ?_, by decide, ?_⟩
  · intro duration distance hd ht
    rw [h32] at hd ht
    constructor
    · simp only [encode, leBytes4, fromLE4, List.take, List.append, h32]
      norm_num
      omega
    · simp only [encode, leBytes4, fromLE4, List.drop, List.append, h32]
      norm_num
      omega
  · intro m r0 rs hrows
    unfold binary_encode
    rw [hrows]
    dsimp only
    obtain ⟨t, ht⟩ := rows_foldl_prefix (r0 :: rs)
      (encode ((r0 :: rs).length % 2 ^ 32) (r0.elements.length % 2 ^ 32))
    refine ⟨_, rfl, ?_⟩
    rw [ht]
    have htake := List.take_left
      (encode ((r0 :: rs).length % 2 ^ 32) (r0.elements.length % 2 ^ 32)) t
    rw [show (encode ((r0 :: rs).length % 2 ^ 32)
          (r0.elements.length % 2 ^ 32)).length = 8 from rfl] at htake
    rw [htake]
    unfold encode
    rw [leBytes4_mod, leBytes4_mod]

/-- A one-element matrix row for the encoder witnesses. -/
def demoRow : Row :=
  { elements := [{ duration := { value := 65 },
                   distance := { value := 1200 },
                   raw_duration := none,
                   predicted_duration := none }] }

/-- A one-row matrix output for the encoder witnesses. -/
def demoMatrix : MatrixOutput :=
  { status := "Ok", warning := none, rows := [demoRow] }

/-- A concrete witness instance for encode_le_bytes_spec: the spec pair
(65, 1200) decodes back from its bytes and demoMatrix starts with its header
record. -/
theorem encode_le_bytes_spec_witness :
    (fromLE4 ((encode 65 1200).take 4) = 65 ∧
       fromLE4 ((encode 65 1200).drop 4) = 1200) ∧
    ∃ bs, binary_encode demoMatrix = some bs ∧
      bs.take 8 = encode demoMatrix.rows.length demoRow.elements.length := by
  constructor
  · exact encode_le_bytes_spec.2.1 65 1200 (by norm_num) (by norm_num)
  · exact encode_le_bytes_spec.2.2.2 demoMatrix demoRow [] rfl

/-- C10: binary_encode indexes rows[0] unconditionally, so it is defined
exactly for outputs with at least one row; under that precondition the
result has 8 * (1 + total element count) bytes, and for an empty rows list
the operation has no result. -/
theorem binary_encode_defined_iff_rows_nonempty (m : MatrixOutput) :
    (m.rows = [] → binary_encode m = none) ∧
    (m.rows ≠ [] → ∃ bs, binary_encode m = some bs ∧
       bs.length = 8 * (1 + (m.rows.map (fun r => r.elements.length)).sum)) := by
  constructor
  · intro hnil
    unfold binary_encode
    rw [hnil]
  · intro hne
    cases hrows : m.rows with
    | nil => exact absurd hrows hne
    | cons r0 rs =>
        unfold binary_encode
        rw [hrows]
        dsimp only
        refine ⟨_, rfl, ?_⟩
        rw [← hrows, rows_foldl_length]
        rw [show (encode (m.rows.length % 2 ^ 32)
              (r0.elements.length % 2 ^ 32)).length = 8 from rfl]
        ring

/-- A concrete witness instance for binary_encode_defined_iff_rows_nonempty:
an empty output is undefined, and demoMatrix encodes to 16 bytes. -/
theorem binary_encode_defined_iff_rows_nonempty_witness :
    binary_encode { status := "Ok", warning := none, rows := [] } = none ∧
    ∃ bs, binary_encode demoMatrix = some bs ∧
      bs.length =
        8 * (1 + (demoMatrix.rows.map (fun r => r.elements.length)).sum) :=
  ⟨(binary_encode_defined_iff_rows_nonempty
      { status := "Ok", warning := none, rows := [] }).1 rfl,
   (binary_encode_defined_iff_rows_nonempty demoMatrix).2 (by decide)⟩

theorem vertexStep_swt {line : String} {c : Rat × Rat}
    (h : vertexStep line = some (some c)) :
    (tabToSpace (rustTrimEnd line)).startsWith " " = true := by
  by_cases hs : (tabToSpace (rustTrimEnd line)).startsWith " " = true
  · exact hs
  · exfalso
    unfold vertexStep at h
    rw [if_neg hs] at h
    cases h

theorem swt_not_end {line : String}
    (h : (tabToSpace (rustTrimEnd line)).startsWith " " = true) :
    rustTrimEnd line ≠ "END" := by
  intro he
  rw [he] at h
  exact absurd h (by with_unfolding_all decide)

theorem loadStep_open {line : String} {c : Rat × Rat}
    (h : vertexStep line = some (some c)) (cs : List (Rat × Rat))
    (ps : List Polygon) :
    loadStep { mode := 0, coords := cs, polygons := ps } line =
      some { mode := 1, coords := cs, polygons := ps } := by
  unfold loadStep
  dsimp only
  rw [if_pos (vertexStep_swt h)]

theorem loadStep_vertex {line : String} {c : Rat × Rat}
    (h : vertexStep line = some (some c)) (cs : List (Rat × Rat))
    (ps : List Polygon) :
    loadStep { mode := 1, coords := cs, polygons := ps } line =
      some { mode := 1, coords := cs ++ [c], polygons := ps } := by
  unfold loadStep
  dsimp only
  rw [h]
  dsimp only
  rw [if_neg (swt_not_end (vertexStep_swt h))]

theorem loadStep_end1 (cs : List (Rat × Rat)) (ps : List Polygon) :
    loadStep { mode := 1, coords := cs, polygons := ps } "END" =
      some { mode := 0, coords := [],
             polygons := ps ++ [Polygon.new cs] } := by
  unfold loadStep
  dsimp only
  rw [show vertexStep "END" = some none from by with_unfolding_all decide]
  dsimp only
  rw [if_pos (show rustTrimEnd "END" = "END" from by with_unfolding_all decide)]

theorem loadStep_end0 (cs : List (Rat × Rat)) (ps : List Polygon) :
    loadStep { mode := 0, coords := cs, polygons := ps } "END" =
      some { mode := 0, coords := cs, polygons := ps } := by
  unfold loadStep
  dsimp only
  rw [if_neg (show ¬ ((tabToSpace (rustTrimEnd "END")).startsWith " " = true)
    from by with_unfolding_all decide)]

theorem runLines_cons (st : LoadSt) (l : String) (ls : List String) :
    runLines st (l :: ls) =
      match loadStep st l with
      | none => none
      | some st2 => runLines st2 ls := rfl

theorem runLines_append (xs ys : List String) :
    ∀ st : LoadSt, runLines st (xs ++ ys) =
      match runLines st xs with
      | none => none
      | some st2 => runLines st2 ys := by
  induction xs with
  | nil => intro st; rfl
  | cons l rest ih =>
      intro st
      rw [List.cons_append, runLines_cons, runLines_cons]
      cases loadStep st l with
      | none => rfl
      | some st2 => exact ih st2

theorem runBlockVerts (b : List (String × (Rat × Rat))) :
    ∀ (cs : List (Rat × Rat)) (ps : List Polygon),
    (∀ t ∈ b, vertexStep t.1 = some (some t.2)) →
    runLines { mode := 1, coords := cs, polygons := ps } (b.map Prod.fst) =
      some { mode := 1, coords := cs ++ b.map Prod.snd, polygons := ps } := by
  induction b with
  | nil =>
      intro cs ps _
      simp [runLines]
  | cons t rest ih =>
      intro cs ps hall
      have ht := hall t (List.mem_cons_self t rest)
      rw [List.map_cons, runLines_cons, loadStep_vertex ht]
      dsimp only
      rw [ih (cs ++ [t.2]) ps (fun x hx => hall x (List.mem_cons_of_mem t hx))]
      simp

theorem runBlock (b : List (String × (Rat × Rat))) (ps : List Polygon)
    (hne : b ≠ [])
    (hall : ∀ t ∈ b, vertexStep t.1 = some (some t.2)) :
    runLines { mode := 0, coords := [], polygons := ps }
        (b.map Prod.fst ++ ["END"]) =
      some { mode := 0, coords := [],
             polygons := ps ++ [Polygon.new ((b.drop 1).map Prod.snd)] } := by
  cases b with
  | nil => exact absurd rfl hne
  | cons t rest =>
      have ht := hall t (List.mem_cons_self t rest)
      rw [List.map_cons, List.cons_append, runLines_cons, loadStep_open ht]
      dsimp only
      rw [runLines_append]
      rw [runBlockVerts rest [] ps
        (fun x hx => hall x (List.mem_cons_of_mem t hx))]
      dsimp only
      rw [runLines_cons { mode := 1, coords := [] ++ rest.map Prod.snd, polygons := ps } "END" []]
      rw [loadStep_end1]
      simp [runLines]

theorem runBlocks (blocks : List (List (String × (Rat × Rat)))) :
    ∀ ps : List Polygon,
    (∀ b ∈ blocks, b ≠ []) →
    (∀ b ∈ blocks, ∀ t ∈ b, vertexStep t.1 = some (some t.2)) →
    runLines { mode := 0, coords := [], polygons := ps }
        (blocks.flatMap (fun b => b.map Prod.fst ++ ["END"])) =
      some { mode := 0, coords := [],
             polygons := ps ++ blocks.map
               (fun b => Polygon.new ((b.drop 1).map Prod.snd)) } := by
  induction blocks with
  | nil =>
      intro ps _ _
      simp [runLines]
  | cons b rest ih =>
      intro ps hne hall
      rw [List.flatMap_cons, runLines_append]
      rw [runBlock b ps (hne b (List.mem_cons_self b rest))
        (hall b (List.mem_cons_self b rest))]
      dsimp only
      rw [ih (ps ++ [Polygon.new ((b.drop 1).map Prod.snd)])
        (fun x hx => hne x (List.mem_cons_of_mem b hx))
        (fun x hx => hall x (List.mem_cons_of_mem b hx))]
      simp

/-- C8 counterexample: on the well-formed document with one block of three
vertex lines, _load returns one polygon whose ring has only the last two
vertices — the first indented line of points only switches the state machine
into block mode and its coordinates are dropped — so the ring is not the full
vertex list the claim states. -/
theorem poly_load_drops_first_vertex_line :
    _load "hdr\n 0 0\n 1 0\n 0 1\nEND\nEND" =
        some [Polygon.new [(1, 0), (0, 1)]] ∧
      _load "hdr\n 0 0\n 1 0\n 0 1\nEND\nEND" ≠
        some [Polygon.new [(0, 0), (1, 0), (0, 1)]] := by
  constructor <;> with_unfolding_all decide

/-- C8 as the code has it: for a well-formed .poly document — a header line
that is not indented, then blocks of indented vertex lines each closed by an
END line, with a final top-level END — the loader returns one polygon per
block, whose exterior ring is the block's vertex lines after the first, in
file order, tab and space indentation treated identically; the opening
vertex line of each block is consumed by the mode switch and dropped. -/
theorem poly_load_blocks_drop_first (header : String)
    (blocks : List (List (String × (Rat × Rat))))
    (hheader : (tabToSpace (rustTrimEnd header)).startsWith " " = false)
    (hne : ∀ b ∈ blocks, b ≠ [])
    (hvert : ∀ b ∈ blocks, ∀ t ∈ b, vertexStep t.1 = some (some t.2)) :
    loadLinesPoly
        (header :: blocks.flatMap (fun b => b.map Prod.fst ++ ["END"]) ++
          ["END"]) =
      some (blocks.map (fun b => Polygon.new ((b.drop 1).map Prod.snd))) := by
  unfold loadLinesPoly
  rw [List.cons_append, runLines_cons]
  rw [show loadStep { mode := 0, coords := [], polygons := [] } header =
      some { mode := 0, coords := [], polygons := [] } from by
    unfold loadStep
    dsimp only
    rw [if_neg (by rw [hheader]; intro h; cases h)]]
  dsimp only
  rw [runLines_append, runBlocks blocks [] hne hvert]
  dsimp only
  rw [runLines_cons, loadStep_end0]
  simp [runLines]

/-- A concrete witness instance for poly_load_blocks_drop_first: one block
with a space-indented, a tab-indented and another space-indented vertex line;
the loader keeps the last two vertices. -/
theorem poly_load_blocks_drop_first_witness :
    loadLinesPoly
        ("hdr" :: [[(" 0 0", ((0 : Rat), (0 : Rat))),
                    ("\t1 0", ((1 : Rat), (0 : Rat))),
                    (" 0 1", ((0 : Rat), (1 : Rat)))]].flatMap
            (fun b => b.map Prod.fst ++ ["END"]) ++ ["END"]) =
      some ([[(" 0 0", ((0 : Rat), (0 : Rat))),
              ("\t1 0", ((1 : Rat), (0 : Rat))),
              (" 0 1", ((0 : Rat), (1 : Rat)))]].map
        (fun b => Polygon.new ((b.drop 1).map Prod.snd))) :=
  poly_load_blocks_drop_first "hdr"
    [[(" 0 0", ((0 : Rat), (0 : Rat))),
      ("\t1 0", ((1 : Rat), (0 : Rat))),
      (" 0 1", ((0 : Rat), (1 : Rat)))]]
    (by with_unfolding_all decide)
    (by with_unfolding_all decide)
    (by with_unfolding_all decide)
